import Mathlib

/-!
Verification of the runtime semantics library `src/runtime/js_compat.py`.

Shallow embedding conventions:
* Python floats are modelled exactly as NaN, signed infinities, or a finite
  rational value (`JSF`).  IEEE-754 rounding and overflow of host arithmetic
  are outside the scope of this model; all finite arithmetic is exact.
* Python ints are unbounded, as in the host.
* `None`, the `JSUndefined` singleton, strings, booleans, lists, dicts and
  callables become the constructors of the `Value` sum type.  Lists, dicts and
  callables carry an identity tag (`id : Nat`) because the source compares them
  with the host identity operator; two values with the same tag stand for the
  same heap object.
* Mutation (`js_delete`) is modelled by returning the updated container.
* Host exceptions that escape a function are modelled with `Option`/`Except`.
-/

namespace JsCompat

/-- A Python float: NaN, +inf, -inf, or a finite value (modelled as an exact
rational; IEEE-754 rounding is outside the scope of this development). -/
inductive JSF : Type
  | nan
  | pinf
  | ninf
  | fin (q : ℚ)
deriving DecidableEq, Repr

/-- A Python number as handled by the numeric helpers: an int or a float.
(`bool` is deliberately not in this type: the source excludes `bool` from its
numeric buckets with exact `type(...)` checks.) -/
inductive JSNum : Type
  | i (n : ℤ)
  | f (x : JSF)
deriving DecidableEq, Repr

/-- `math.isnan` on our number model (ints are never NaN). -/
def JSNum.isNaN : JSNum → Bool
  | .f .nan => true
  | _ => false

/-- `math.isinf` on our number model. -/
def JSNum.isInf : JSNum → Bool
  | .f .pinf => true
  | .f .ninf => true
  | _ => false

/-- Python `x == 0` for a number. -/
def JSNum.isZero : JSNum → Bool
  | .i n => n == 0
  | .f (.fin q) => q == 0
  | _ => false

/-- `float(x)` for x an int or float.  int → float conversion is exact in the
rational model (host overflow for astronomically large ints is out of scope). -/
def JSNum.toF : JSNum → JSF
  | .i n => .fin (n : ℚ)
  | .f x => x

/-- Python `==` between two floats: NaN is unequal to everything, infinities
compare by sign, finite values by exact value. -/
def JSF.eqB : JSF → JSF → Bool
  | .nan, _ => false
  | _, .nan => false
  | .pinf, .pinf => true
  | .ninf, .ninf => true
  | .fin a, .fin b => a == b
  | _, _ => false

/-- The runtime value model: the Python values that flow through js_compat.
`undef` is the `JSUndefined` singleton, `null` is `None`; `arr`, `obj` and
`func` carry an identity tag standing for the host object identity. `obj`
fields are an insertion-ordered string-keyed association list. -/
inductive Value : Type
  | undef
  | null
  | bool (b : Bool)
  | num (n : JSNum)
  | str (s : String)
  | arr (id : ℕ) (elems : List Value)
  | obj (id : ℕ) (fields : List (String × Value))
  | func (id : ℕ)

/-- `isinstance(x, float) and math.isnan(x)`. -/
def isNaNV : Value → Bool
  | .num (.f .nan) => true
  | _ => false

/-- `x is None`. -/
def isNullV : Value → Bool
  | .null => true
  | _ => false

/-- `x is JSUndefined`. -/
def isUndefV : Value → Bool
  | .undef => true
  | _ => false

/-!  ## js_truthy  -/

/-- `js_truthy` from src/runtime/js_compat.py.  The source tests, in order:
float NaN; `is JSUndefined`; `is None`; `x == ''` (in Python only a string
equals `''`); `x == 0` (numbers with value zero, and `False`, equal `0`);
everything else is truthy. -/
def jsTruthy : Value → Bool
  | .num (.f .nan) => false  -- isinstance(x, float) and isnan(x)
  | .undef => false          -- x is JSUndefined
  | .null => false           -- x is None
  | .str s => !(s == "")     -- x == ''
  | .num n => !n.isZero      -- x == 0 (covers 0, 0.0, -0.0)
  | .bool b => b             -- False == 0 in Python, True is truthy
  | _ => true                -- everything else, including [] and {}

/-!  ## js_strict_eq  -/

/-- The exact Python type of a value, for the source's `type(a)`-based
comparisons.  Note int and float are distinct host types. -/
inductive PyTy : Type
  | undefT | noneT | boolT | intT | floatT | strT | listT | dictT | funcT
deriving DecidableEq, Repr

/-- `type(v)`. -/
def Value.pyTy : Value → PyTy
  | .undef => .undefT
  | .null => .noneT
  | .bool _ => .boolT
  | .num (.i _) => .intT
  | .num (.f _) => .floatT
  | .str _ => .strT
  | .arr _ _ => .listT
  | .obj _ _ => .dictT
  | .func _ => .funcT

/-- `js_strict_eq` from src/runtime/js_compat.py, branch for branch:
NaN on either side is false; `None is None` and `JSUndefined is JSUndefined`
are true; `type(a) in (int, float) and type(b) in (int, float)` compares
`float(a) == float(b)`; a remaining type mismatch is false; str and bool
compare by value; lists, dicts and callables compare by identity. -/
def jsStrictEq (a b : Value) : Bool :=
  if isNaNV a || isNaNV b then false
  else if isNullV a && isNullV b then true
  else if isUndefV a && isUndefV b then true
  else
    match a, b with
    | .num m, .num n => JSF.eqB m.toF n.toF
    | .bool x, .bool y => x == y      -- same type: value equality
    | .str x, .str y => x == y        -- same type: value equality
    | .arr i _, .arr j _ => i == j    -- identity
    | .obj i _, .obj j _ => i == j    -- identity
    | .func i, .func j => i == j      -- identity
    | _, _ => false                   -- type(a) is not type(b)

/-- The source-language variant of a value (spec section 3): int and float
numbers are one `Number` variant; everything else is its own variant. -/
inductive JsVariant : Type
  | undefV | nullV | boolV | numberV | stringV | objectV | arrayV | functionV
deriving DecidableEq, Repr

/-- Which source-language variant a value belongs to. -/
def Value.variant : Value → JsVariant
  | .undef => .undefV
  | .null => .nullV
  | .bool _ => .boolV
  | .num _ => .numberV
  | .str _ => .stringV
  | .obj _ _ => .objectV
  | .arr _ _ => .arrayV
  | .func _ => .functionV

/-!  ## Python string-to-number parsing (`int(s)` and `float(s)`)  -/

/-- Python `str.strip` whitespace, ASCII fragment (exotic Unicode whitespace
is out of the model's scope). -/
def isPySpace (c : Char) : Bool :=
  c == ' ' || c == '\t' || c == '\n' || c == '\r' || c == '\x0b' || c == '\x0c'

/-- Python `str.strip()`: drop leading and trailing whitespace. -/
def pyStripL (l : List Char) : List Char :=
  ((l.dropWhile isPySpace).reverse.dropWhile isPySpace).reverse

/-- Python `str.strip()` on strings. -/
def pyStrip (s : String) : String := ⟨pyStripL s.toList⟩

/-- One optional leading sign: returns (isNegative, rest). -/
def pyTakeSign (l : List Char) : Bool × List Char :=
  match l with
  | [] => (false, l)
  | c :: r =>
      if c == '-' then (true, r)
      else if c == '+' then (false, r)
      else (false, l)

/-- Numeric value of a big-endian list of decimal digit characters, by
left-to-right accumulation. -/
def digitsVal (l : List Char) : ℕ :=
  l.foldl (fun a c => 10 * a + (c.toNat - 48)) 0

/-- No two adjacent underscores. -/
def noUU : List Char → Bool
  | a :: b :: t => !(a == '_' && b == '_') && noUU (b :: t)
  | _ => true

/-- A valid CPython digit group with underscores: nonempty, every char a
decimal digit or an underscore, first and last chars digits, and no two
adjacent underscores (hence every underscore sits between two digits). -/
def validDigitsU (l : List Char) : Bool :=
  !l.isEmpty && (l.headD '_').isDigit && (l.getLastD '_').isDigit &&
    l.all (fun c => c.isDigit || c == '_') && noUU l

/-- Remove underscores before valuation. -/
def stripU (l : List Char) : List Char := l.filter (fun c => !(c == '_'))

/-- CPython `int(s)` on a string: strip whitespace, one optional sign, then
one valid decimal digit group (a `0x`/`0o`/`0b` prefix is a ValueError, as is
anything else non-decimal).  `none` models the host ValueError.  Non-ASCII
decimal digits are out of the model's scope. -/
def pyIntParse (s : String) : Option ℤ :=
  let l := pyStripL s.toList
  let sr := pyTakeSign l
  if validDigitsU sr.2 then
    some ((if sr.1 then -1 else 1) * (digitsVal (stripU sr.2) : ℤ))
  else none

/-- Split a list at the first character satisfying p: the part before and,
when found, the separator together with the part after. -/
def splitAtFirst (p : Char → Bool) : List Char → List Char × Option (Char × List Char)
  | [] => ([], none)
  | c :: cs =>
      if p c then ([], some (c, cs))
      else
        let r := splitAtFirst p cs
        (c :: r.1, r.2)

/-- CPython `float(s)` on a string, decimal forms: strip whitespace, optional
sign, mantissa `digits [. [digits]]` or `. digits`, optional exponent
`(e|E) [sign] digits`, underscores as in digit groups.  The exact rational
value is returned; `none` models the host ValueError.  The special forms
inf/infinity/nan are not modelled: js_to_number only calls float() on strings
containing a dot or an e/E, which those forms never contain. -/
def pyFloatParse (s : String) : Option ℚ :=
  let l := pyStripL s.toList
  let sr := pyTakeSign l
  let me := splitAtFirst (fun c => c == 'e' || c == 'E') sr.2
  let ifp := splitAtFirst (fun c => c == '.') me.1
  let ip := ifp.1
  let fp := (ifp.2.map Prod.snd).getD []
  let okMant : Bool :=
    (ip.isEmpty && validDigitsU fp) ||
      (!ip.isEmpty && validDigitsU ip && (fp.isEmpty || validDigitsU fp))
  let mVal : ℚ := (digitsVal (stripU ip ++ stripU fp) : ℚ) / (10 : ℚ) ^ (stripU fp).length
  let signedM : ℚ := if sr.1 then -mVal else mVal
  match me.2 with
  | none => if okMant then some signedM else none
  | some ep =>
      let es := pyTakeSign ep.2
      if okMant && validDigitsU es.2 then
        some (signedM *
          (10 : ℚ) ^ (if es.1 then -(digitsVal (stripU es.2) : ℤ) else (digitsVal (stripU es.2) : ℤ)))
      else none

/-- A hexadecimal literal string, modelled from the spec: the hexadecimal
literal forms (0x-prefixed, optionally signed, optionally whitespace-padded)
that toNumber must map to NaN rather than accept. -/
def isHexLiteral (s : String) : Bool :=
  match (pyTakeSign (pyStripL s.toList)).2 with
  | '0' :: c :: _ => c == 'x' || c == 'X'
  | _ => false

/-- An octal literal string, modelled from the spec: the 0o-prefixed octal
literal forms that toNumber must map to NaN.  (A bare leading zero, as in
017, is a decimal form with a redundant zero for both int() and the source
language ToNumber, not an octal literal.) -/
def isOctLiteral (s : String) : Bool :=
  match (pyTakeSign (pyStripL s.toList)).2 with
  | '0' :: c :: _ => c == 'o' || c == 'O'
  | _ => false

/-!  ## js_to_number  -/

/-- `js_to_number` from src/runtime/js_compat.py: None → 0 (an int),
JSUndefined → NaN, bool → 1/0 (ints), int/float returned as-is; a string is
stripped, the empty result is 0, a result containing a dot or an e/E goes to
`float(s)`, anything else to `int(s)`, with ValueError giving NaN; every other
value is NaN. -/
def jsToNumber : Value → JSNum
  | .null => .i 0
  | .undef => .f .nan
  | .bool b => .i (if b then 1 else 0)
  | .num n => n
  | .str x =>
      let s := pyStrip x
      if s = "" then .i 0
      else if s.toList.any (fun c => c == '.' || c == 'e' || c == 'E') then
        match pyFloatParse s with
        | some q => .f (.fin q)
        | none => .f .nan
      else
        match pyIntParse s with
        | some n => .i n
        | none => .f .nan
  | _ => .f .nan

/-!  ## js_mod  -/

/-- `math.trunc` on an exact rational: round toward zero, to an int. -/
def ratTrunc (q : ℚ) : ℤ := if 0 ≤ q then ⌊q⌋ else ⌈q⌉

/-- The finite rational value of a number.  NaN and infinities map to a junk
zero; every use below sits behind the source's own NaN/inf guards. -/
def JSNum.finQ : JSNum → ℚ
  | .i n => (n : ℚ)
  | .f (.fin q) => q
  | _ => 0

/-- Core of `js_mod` on the two coerced operands, branch for branch: NaN
operand or zero divisor → NaN; infinite dividend → NaN; infinite divisor →
dividend unchanged; else `num_a - num_b * trunc(num_a / num_b)`, an int when
both operands are ints (Python int arithmetic) and a float otherwise.  Finite
float arithmetic is exact in the rational model. -/
def jsModCore (na nb : JSNum) : JSNum :=
  if na.isNaN || nb.isNaN || nb.isZero then .f .nan
  else if na.isInf then .f .nan
  else if nb.isInf then na
  else
    match na, nb with
    | .i x, .i y => .i (x - y * ratTrunc ((x : ℚ) / (y : ℚ)))
    | _, _ => .f (.fin (na.finQ - nb.finQ * (ratTrunc (na.finQ / nb.finQ) : ℚ)))

/-- `js_mod` from src/runtime/js_compat.py: coerce both operands with
js_to_number, then apply the guarded remainder computation. -/
def jsMod (a b : Value) : JSNum := jsModCore (jsToNumber a) (jsToNumber b)

/-!  ## js_loose_eq  -/

/-- `isinstance(x, (list, dict))`. -/
def isContainer : Value → Bool
  | .arr _ _ => true
  | .obj _ _ => true
  | _ => false

/-- Python `a == b` for two non-container values of the same host type
(reached only under the source's `type(a) == type(b)` guard; the catch-all is
unreachable).  Function objects fall back to default identity equality. -/
def pySameTyEq : Value → Value → Bool
  | .undef, .undef => true
  | .null, .null => true
  | .bool x, .bool y => x == y
  | .num (.i x), .num (.i y) => x == y
  | .num (.f x), .num (.f y) => JSF.eqB x y
  | .str x, .str y => x == y
  | .func i, .func j => i == j
  | _, _ => false

/-- Number of bool operands: the termination measure of the bool-coercion
recursion in js_loose_eq. -/
def boolRank : Value → ℕ
  | .bool _ => 1
  | _ => 0

/-- `js_loose_eq` from src/runtime/js_compat.py, branch for branch: containers
raise TypeError (modelled as `.error`); float NaN on either side is false;
null and undefined are loosely equal; same host type compares by value; an
int/float/bool against a string coerces the string with js_to_number and
compares numerically; a remaining bool operand recurses as its int value;
anything else is false. -/
def jsLooseEq : Value → Value → Except String Bool
  | a, b =>
    if isContainer a || isContainer b then
      .error "Loose equality with objects/arrays is not supported. Use strict equality."
    else if isNaNV a || isNaNV b then .ok false
    else if (isNullV a && isUndefV b) || (isUndefV a && isNullV b) then .ok true
    else if a.pyTy == b.pyTy then .ok (pySameTyEq a b)
    else
      match a, b with
      | .num m, .str t => .ok (JSF.eqB m.toF (jsToNumber (.str t)).toF)
      | .bool x, .str t =>
          .ok (JSF.eqB (JSNum.i (if x then 1 else 0)).toF (jsToNumber (.str t)).toF)
      | .str t, .num m => .ok (JSF.eqB (jsToNumber (.str t)).toF m.toF)
      | .str t, .bool x =>
          .ok (JSF.eqB (jsToNumber (.str t)).toF (JSNum.i (if x then 1 else 0)).toF)
      | .bool x, b2 => jsLooseEq (.num (.i (if x then 1 else 0))) b2
      | a2, .bool x => jsLooseEq a2 (.num (.i (if x then 1 else 0)))
      | _, _ => .ok false
  termination_by a b => boolRank a + boolRank b
  decreasing_by
    all_goals simp [boolRank]

/-!  ## compile_js_regex  -/

/-- A compiled pattern: the pattern string and the target-engine flags that
compile_js_regex sets.  Pattern-syntax errors of the host regex compiler are
outside the model; the claims are about flag handling only. -/
structure CompiledPattern where
  pattern : String
  ignorecase : Bool
  multiline : Bool
  dotall : Bool
deriving DecidableEq, Repr

/-- `compile_js_regex` from src/runtime/js_compat.py: drop every g
(the replace of g by the empty string), then ValueError on y, ValueError on
u, then set IGNORECASE/MULTILINE/DOTALL from i/m/s membership.  Any other
character in the flags string falls through all checks and is silently
ignored. -/
def compileJsRegex (pattern : String) (flags : String) : Except String CompiledPattern :=
  let fs := flags.toList.filter (fun c => !(c == 'g'))
  if fs.contains 'y' then .error "Regex sticky flag y is not supported."
  else if fs.contains 'u' then .error "Regex unicode flag u is not supported."
  else .ok ⟨pattern, fs.contains 'i', fs.contains 'm', fs.contains 's'⟩

/-!  ## Host decimal rendering (Python str of numbers)  -/

/-- Decimal digit characters of a natural number, most significant first:
the host str() of a nonnegative integer. -/
def natDecRender (n : ℕ) : List Char :=
  if n = 0 then ['0'] else (Nat.digits 10 n).reverse.map Nat.digitChar

/-- Python str(i) for a nonnegative int, as used for list and string indices
in js_for_in_keys. -/
def pyStrNat (n : ℕ) : String := ⟨natDecRender n⟩

/-- Python str(int). -/
def pyStrInt (n : ℤ) : String :=
  ⟨(if n < 0 then ['-'] else []) ++ natDecRender n.natAbs⟩

/-- Least number of decimal fraction digits for an exact rendering of a
rational with denominator `den`: the least k with den ∣ 10^k (k ≤ den always
suffices when one exists), none when the decimal expansion does not
terminate. -/
def decExp (den : ℕ) : Option ℕ :=
  (List.range (den + 1)).find? (fun k => 10 ^ k % den == 0)

/-- Zero-pad a digit list on the left to length n. -/
def leftPad0 (n : ℕ) (l : List Char) : List Char :=
  List.replicate (n - l.length) '0' ++ l

/-- Decimal rendering of m / 10^k, Python positional float style: sign,
integer part, a dot, exactly k fraction digits. -/
def renderDec (m : ℤ) (k : ℕ) : List Char :=
  let ds := leftPad0 (k + 1) (natDecRender m.natAbs)
  (if m < 0 then ['-'] else []) ++ ds.take (ds.length - k) ++ '.' :: ds.drop (ds.length - k)

/-- Python str() of a float, in the rational model: a finite value with
terminating decimal expansion renders positionally with at least one fraction
digit.  (The host switches to exponent notation for extreme magnitudes; both
forms denote the same number and reparse identically, and the positional form
is the modelled one.)  A non-terminating rational cannot arise from a host
float - every float is dyadic - so such values only get an approximate
17-digit rendering here; they are exactly the displays the round-trip claim
excludes as exotic. -/
def pyStrFloat (q : ℚ) : String :=
  match decExp q.den with
  | some k =>
      let k2 := max k 1
      ⟨renderDec (q.num * 10 ^ k2 / (q.den : ℤ)) k2⟩
  | none => ⟨renderDec (q.num * 10 ^ 17 / (q.den : ℤ)) 17⟩

/-!  ## to_js_string (the display conversion of js_add and console_log)  -/

/-- `to_js_string` from js_add/console_log in src/runtime/js_compat.py:
JSUndefined and None display by their source names, bools lowercase, and
everything else through the host str().  Numbers follow the host rendering
modelled above; the host repr of containers is displayed by no claim and is
modelled as a fixed placeholder. -/
def toJsString : Value → String
  | .undef => "undefined"
  | .null => "null"
  | .bool b => if b then "true" else "false"
  | .num (.i n) => pyStrInt n
  | .num (.f .nan) => "nan"
  | .num (.f .pinf) => "inf"
  | .num (.f .ninf) => "-inf"
  | .num (.f (.fin q)) => pyStrFloat q
  | .str s => s
  | .arr _ _ => "\x5b...\x5d"
  | .obj _ _ => "\x7b...\x7d"
  | .func _ => "\x3cfunction\x3e"

/-!  ## js_delete and js_for_in_keys  -/

/-- How a key resolves to a host list index inside js_delete: a string key
through int(key) (`none` models the swallowed ValueError), an int key
directly, a bool key as the int it is.  A float key passes the range
comparison but raises TypeError at the sequence assignment, and every other
key raises TypeError at the comparison; both exceptions are swallowed, so
`none` models them faithfully (the observable effect is a no-op). -/
def listKeyIndex : Value → Option ℤ
  | .str s => pyIntParse s
  | .num (.i n) => some n
  | .bool b => some (if b then 1 else 0)
  | _ => none

/-- `js_delete` from src/runtime/js_compat.py, with the mutation modelled by
returning the updated base.  On a dict, a present string key is removed
(`key in base` is false for non-string keys against the string-keyed object
model); on a list, a key resolving to an in-range index overwrites that slot
with JSUndefined - never del, which would shift; anything else, and any
non-container base, is a no-op.  The first component is the returned value:
always true. -/
def jsDelete (base key : Value) : Bool × Value :=
  match base with
  | .obj id fields =>
      match key with
      | .str s => (true, .obj id (fields.filter (fun kv => !(kv.1 == s))))
      | _ => (true, base)
  | .arr id elems =>
      match listKeyIndex key with
      | some idx =>
          if 0 ≤ idx ∧ idx < (elems.length : ℤ) then
            (true, .arr id (elems.set idx.toNat .undef))
          else (true, base)
      | none => (true, base)
  | _ => (true, base)

/-- `js_for_in_keys` from src/runtime/js_compat.py, as the list of yielded
keys: dict keys in insertion order (strings already), list indices as decimal
strings skipping JSUndefined holes, string indices as decimal strings, and
nothing for any other value. -/
def jsForInKeys : Value → List String
  | .obj _ fields => fields.map (fun kv => kv.1)
  | .arr _ elems =>
      ((List.range elems.length).filter
        (fun i => !isUndefV (elems.getD i .undef))).map pyStrNat
  | .str s => (List.range s.length).map pyStrNat
  | _ => []

/-!  ## js_substring  -/

/-- Python int(x) on a number: truncation toward zero for ints and finite
floats; `none` models the host errors on NaN (ValueError) and infinities
(OverflowError). -/
def pyIntOfNum : JSNum → Option ℤ
  | .i n => some n
  | .f (.fin q) => some (ratTrunc q)
  | _ => none

/-- Python max(0, min(i, len)). -/
def clampIdx (i : ℤ) (len : ℕ) : ℤ := max 0 (min i (len : ℤ))

/-- The end-bound computation of js_substring: an end of None/JSUndefined
selects len(s); otherwise js_to_number with the NaN guard to 0. -/
def substringEndNum (s : String) (stop : Value) : JSNum :=
  if isNullV stop || isUndefV stop then .i s.length
  else
    let e0 := jsToNumber stop
    if e0.isNaN then .i 0 else e0

/-- The tail of js_substring on the two guarded numeric bounds: truncate both
with int() - `none` models the uncaught OverflowError on an infinite bound -
clamp into [0, len], swap the pair when inverted, slice by code points. -/
def substringCore (s : String) (sn en : JSNum) : Option String :=
  match pyIntOfNum sn, pyIntOfNum en with
  | some si, some ei =>
      let a := clampIdx si s.length
      let b := clampIdx ei s.length
      let ab := if b < a then (b, a) else (a, b)
      some ⟨(s.toList.drop ab.1.toNat).take (ab.2.toNat - ab.1.toNat)⟩
  | _, _ => none

/-- `js_substring` from src/runtime/js_compat.py: coerce the start with
js_to_number and guard NaN to 0, compute the end bound, truncate, clamp,
swap, slice. -/
def jsSubstring (s : String) (start stop : Value) : Option String :=
  let sn0 := jsToNumber start
  substringCore s (if sn0.isNaN then .i 0 else sn0) (substringEndNum s stop)

/-- Symmetry of boolean equality tests, for payload types with lawful BEq. -/
theorem beqSymm {α : Type} [DecidableEq α] [BEq α] [LawfulBEq α] (a b : α) :
    (a == b) = (b == a) := by
  by_cases h : a = b
  · simp [h]
  · simp [beq_eq_false_iff_ne, h, Ne.symm h]

/-- Python float equality is symmetric. -/
theorem JSF.eqB_comm (x y : JSF) : JSF.eqB x y = JSF.eqB y x := by
  cases x <;> cases y <;> simp [JSF.eqB, beqSymm]

/-- C1: `js_truthy v` is false exactly when v is Null, Undefined, Boolean
false, a Number with value zero (the exact model has a single zero, standing
for both host signed zeros), Number NaN, or the empty String; every other
value, including an empty Object and an empty Array, is truthy. -/
theorem C1_js_truthy_falsy_set :
    (∀ v : Value, jsTruthy v = false ↔
      (v = .null ∨ v = .undef ∨ v = .bool false ∨ v = .num (.i 0) ∨
       v = .num (.f (.fin 0)) ∨ v = .num (.f .nan) ∨ v = .str "")) ∧
    (∀ id, jsTruthy (.obj id []) = true) ∧
    (∀ id, jsTruthy (.arr id []) = true) := by
  refine ⟨?_, fun _ => rfl, fun _ => rfl⟩
  intro v
  cases v with
  | undef => simp [jsTruthy]
  | null => simp [jsTruthy]
  | bool b => cases b <;> simp [jsTruthy]
  | num n =>
      cases n with
      | i k => simp [jsTruthy, JSNum.isZero]
      | f x => cases x <;> simp [jsTruthy, JSNum.isZero]
  | str s => simp [jsTruthy]
  | arr id es => simp [jsTruthy]
  | obj id fs => simp [jsTruthy]
  | func id => simp [jsTruthy]

/-- C3: strict equality: NaN on either side is never equal (including two
NaNs); Null equals only Null, Undefined only Undefined, and the two are not
strictly equal to each other; numbers compare by numeric value regardless of
int/float representation (1 === 1.0); any cross-variant pair is false; objects,
arrays and functions compare by identity only, so two independently
constructed (distinct-identity) empty objects are never strictly equal. -/
theorem C3_js_strict_eq_rules :
    (∀ a b : Value, (isNaNV a = true ∨ isNaNV b = true) → jsStrictEq a b = false) ∧
    (jsStrictEq .null .null = true ∧ jsStrictEq .undef .undef = true ∧
     jsStrictEq .null .undef = false ∧ jsStrictEq .undef .null = false) ∧
    (∀ m n : JSNum, m.isNaN = false → n.isNaN = false →
      (jsStrictEq (.num m) (.num n) = true ↔ m.toF = n.toF)) ∧
    jsStrictEq (.num (.i 1)) (.num (.f (.fin 1))) = true ∧
    (∀ a b : Value, a.variant ≠ b.variant → jsStrictEq a b = false) ∧
    (∀ i fi j fj, jsStrictEq (.obj i fi) (.obj j fj) = (i == j)) ∧
    (∀ i ei j ej, jsStrictEq (.arr i ei) (.arr j ej) = (i == j)) ∧
    (∀ i j, jsStrictEq (.func i) (.func j) = (i == j)) ∧
    (∀ i j fi fj, i ≠ j → jsStrictEq (.obj i fi) (.obj j fj) = false) := by
  refine ⟨?_, ⟨rfl, rfl, rfl, rfl⟩, ?_, by decide, ?_, ?_, ?_, ?_, ?_⟩
  · intro a b h
    rcases h with h | h
    · cases a with
      | num n =>
          cases n with
          | i k => simp [isNaNV] at h
          | f x => cases x <;> simp_all [isNaNV, jsStrictEq]
      | _ => simp [isNaNV] at h
    · cases b with
      | num n =>
          cases n with
          | i k => simp [isNaNV] at h
          | f x =>
              cases x <;> simp [isNaNV] at h
              cases a <;> simp [jsStrictEq, isNaNV]
      | _ => simp [isNaNV] at h
  · intro m n hm hn
    cases m with
    | i k =>
        cases n with
        | i l => simp [jsStrictEq, isNaNV, isNullV, isUndefV, JSNum.toF, JSF.eqB]
        | f x => cases x <;> simp_all [jsStrictEq, isNaNV, isNullV, isUndefV,
            JSNum.toF, JSF.eqB, JSNum.isNaN]
    | f x =>
        cases x <;> cases n with
        | i l => simp_all [jsStrictEq, isNaNV, isNullV, isUndefV, JSNum.toF,
            JSF.eqB, JSNum.isNaN]
        | f y => cases y <;> simp_all [jsStrictEq, isNaNV, isNullV, isUndefV,
            JSNum.toF, JSF.eqB, JSNum.isNaN]
  · intro a b hv
    by_cases ha : isNaNV a = true
    · simp [jsStrictEq, ha]
    · by_cases hb : isNaNV b = true
      · simp [jsStrictEq, hb]
      · cases a <;> cases b <;>
          simp_all [jsStrictEq, isNaNV, isNullV, isUndefV, Value.variant]
  · intro i fi j fj; rfl
  · intro i ei j ej; rfl
  · intro i j; rfl
  · intro i j fi fj h
    simp [jsStrictEq, isNaNV, isNullV, isUndefV, h]

/-- Closed witness for C3 at concrete inputs: the NaN rule, the numeric-value
rule at 2 vs 2.0, and identity inequality of two distinct empty objects. -/
theorem C3_js_strict_eq_rules_witness :
    jsStrictEq (.num (.f .nan)) (.num (.f .nan)) = false ∧
    (jsStrictEq (.num (.i 2)) (.num (.f (.fin 2))) = true ↔
      (JSNum.i 2).toF = (JSNum.f (.fin 2)).toF) ∧
    jsStrictEq (.str "a") (.num (.i 1)) = false ∧
    jsStrictEq (.obj 0 []) (.obj 1 []) = false := by
  refine ⟨?_, ?_, ?_, ?_⟩
  · exact C3_js_strict_eq_rules.1 _ _ (Or.inl rfl)
  · exact C3_js_strict_eq_rules.2.2.1 _ _ rfl rfl
  · exact C3_js_strict_eq_rules.2.2.2.2.1 _ _ (by decide)
  · exact C3_js_strict_eq_rules.2.2.2.2.2.2.2.2 0 1 [] [] (by decide)

/-- An infinite number is not NaN. -/
theorem JSNum.isNaN_eq_false_of_isInf {n : JSNum} (h : n.isInf = true) :
    n.isNaN = false := by
  cases n with
  | i k => rfl
  | f x => cases x <;> first | rfl | simp [JSNum.isInf] at h

/-- An infinite number is not zero. -/
theorem JSNum.isZero_eq_false_of_isInf {n : JSNum} (h : n.isInf = true) :
    n.isZero = false := by
  cases n with
  | i k => simp [JSNum.isInf] at h
  | f x => cases x <;> first | rfl | simp [JSNum.isInf] at h

/-- A number that is neither NaN nor infinite is an int or a finite float. -/
theorem JSNum.fin_shape (n : JSNum) (h1 : n.isNaN = false) (h2 : n.isInf = false) :
    (∃ k, n = .i k) ∨ ∃ q, n = .f (.fin q) := by
  cases n with
  | i k => exact Or.inl ⟨k, rfl⟩
  | f x =>
      cases x with
      | nan => simp [JSNum.isNaN] at h1
      | pinf => simp [JSNum.isInf] at h2
      | ninf => simp [JSNum.isInf] at h2
      | fin q => exact Or.inr ⟨q, rfl⟩

/-- C2: js_mod computes the dividend-signed remainder
toNumber(a) - toNumber(b) * trunc(toNumber(a)/toNumber(b)); it is NaN whenever
a coerced operand is NaN, the divisor is zero, or the dividend is infinite; a
finite dividend is returned unchanged when the divisor is infinite; and
mod(-7,3) = -1, mod(7,-3) = 1, mod(5, Infinity) = 5, mod(Infinity, 2) = NaN. -/
theorem C2_js_mod_remainder :
    (∀ a b : Value, ((jsToNumber a).isNaN = true ∨ (jsToNumber b).isNaN = true ∨
        (jsToNumber b).isZero = true) → jsMod a b = .f .nan) ∧
    (∀ a b : Value, (jsToNumber a).isInf = true → (jsToNumber b).isNaN = false →
        (jsToNumber b).isZero = false → jsMod a b = .f .nan) ∧
    (∀ a b : Value, (jsToNumber b).isInf = true → (jsToNumber a).isNaN = false →
        (jsToNumber a).isInf = false → jsMod a b = jsToNumber a) ∧
    (∀ a b : Value, (jsToNumber a).isNaN = false → (jsToNumber b).isNaN = false →
        (jsToNumber a).isInf = false → (jsToNumber b).isInf = false →
        (jsToNumber b).isZero = false →
        (jsMod a b).isNaN = false ∧ (jsMod a b).isInf = false ∧
        (jsMod a b).finQ = (jsToNumber a).finQ -
          (jsToNumber b).finQ * (ratTrunc ((jsToNumber a).finQ / (jsToNumber b).finQ) : ℚ)) ∧
    jsMod (.num (.i (-7))) (.num (.i 3)) = .i (-1) ∧
    jsMod (.num (.i 7)) (.num (.i (-3))) = .i 1 ∧
    jsMod (.num (.i 5)) (.num (.f .pinf)) = .i 5 ∧
    jsMod (.num (.f .pinf)) (.num (.i 2)) = .f .nan := by
  have e : ∀ a b : Value, jsMod a b = jsModCore (jsToNumber a) (jsToNumber b) :=
    fun _ _ => rfl
  refine ⟨?_, ?_, ?_, ?_, ?_, ?_, rfl, rfl⟩
  · intro a b h
    rw [e]
    rcases h with h | h | h <;> simp [jsModCore, h]
  · intro a b h1 h2 h3
    rw [e]
    simp [jsModCore, h1, h2, h3, JSNum.isNaN_eq_false_of_isInf h1]
  · intro a b h1 h2 h3
    rw [e]
    simp [jsModCore, h1, h2, h3, JSNum.isNaN_eq_false_of_isInf h1,
      JSNum.isZero_eq_false_of_isInf h1]
  · intro a b h1 h2 h3 h4 h5
    rw [e]
    rcases JSNum.fin_shape _ h1 h3 with ⟨x, hx⟩ | ⟨x, hx⟩ <;>
      rcases JSNum.fin_shape _ h2 h4 with ⟨y, hy⟩ | ⟨y, hy⟩ <;>
      rw [hy] at h5 <;> rw [hx, hy] <;> clear h1 h2 h3 h4 <;>
      simp only [JSNum.isZero] at h5 <;>
      refine ⟨?_, ?_, ?_⟩ <;>
      simp [jsModCore, JSNum.isNaN, JSNum.isInf, JSNum.isZero, JSNum.finQ, h5]
  · rw [e]
    show jsModCore (.i (-7)) (.i 3) = .i (-1)
    simp only [jsModCore, JSNum.isNaN, JSNum.isInf, JSNum.isZero]
    norm_num [ratTrunc]
    rw [Int.ceil_neg]
    norm_num
  · rw [e]
    show jsModCore (.i 7) (.i (-3)) = .i 1
    simp only [jsModCore, JSNum.isNaN, JSNum.isInf, JSNum.isZero]
    norm_num [ratTrunc]
    rw [Int.ceil_neg]
    norm_num

/-- Closed witness for C2 at concrete inputs: NaN divisor, infinite dividend,
infinite divisor, and the finite remainder 7.5 mod 2 = 1.5. -/
theorem C2_js_mod_remainder_witness :
    jsMod (.num (.i 4)) (.num (.f .nan)) = .f .nan ∧
    jsMod (.num (.f .ninf)) (.num (.i 3)) = .f .nan ∧
    jsMod (.num (.f (.fin (3/2)))) (.num (.f .ninf)) = .f (.fin (3/2)) ∧
    ((jsMod (.num (.f (.fin (15/2)))) (.num (.i 2))).isNaN = false ∧
     (jsMod (.num (.f (.fin (15/2)))) (.num (.i 2))).isInf = false ∧
     (jsMod (.num (.f (.fin (15/2)))) (.num (.i 2))).finQ =
       (jsToNumber (.num (.f (.fin (15/2))))).finQ -
         (jsToNumber (.num (.i 2))).finQ *
           (ratTrunc ((jsToNumber (.num (.f (.fin (15/2))))).finQ /
             (jsToNumber (.num (.i 2))).finQ) : ℚ)) := by
  refine ⟨?_, ?_, ?_, ?_⟩
  · exact C2_js_mod_remainder.1 _ _ (Or.inr (Or.inl rfl))
  · exact C2_js_mod_remainder.2.1 _ _ rfl rfl rfl
  · exact C2_js_mod_remainder.2.2.1 _ _ rfl rfl rfl
  · exact C2_js_mod_remainder.2.2.2.1 _ _ rfl rfl rfl rfl (by decide)

/-- Every application of js_loose_eq to two non-container operands returns
normally (n bounds the number of bool operands, for the recursion). -/
theorem jsLooseEq_ok_of_not_container :
    ∀ (n : ℕ) (a b : Value), boolRank a + boolRank b ≤ n →
      isContainer a = false → isContainer b = false →
      ∃ r, jsLooseEq a b = .ok r := by
  intro n
  induction n with
  | zero =>
      intro a b hn ha hb
      unfold jsLooseEq
      rw [if_neg (by simp [ha, hb])]
      repeat' first
        | exact ⟨_, rfl⟩
        | split
      all_goals (simp only [boolRank] at hn; omega)
  | succ k ih =>
      intro a b hn ha hb
      unfold jsLooseEq
      rw [if_neg (by simp [ha, hb])]
      repeat' first
        | exact ⟨_, rfl⟩
        | split
      all_goals
        first
          | exact ih _ _ (by simp only [boolRank] at hn ⊢; omega) rfl hb
          | exact ih _ _ (by simp only [boolRank] at hn ⊢; omega) ha rfl

/-- C4: js_loose_eq raises the unsupported-operation error exactly when at
least one operand is an Object or an Array; with no container operand it
returns normally; and null == undefined holds in both orders. -/
theorem C4_js_loose_eq_container_error :
    (∀ a b : Value, (∃ s, jsLooseEq a b = .error s) ↔
        (isContainer a = true ∨ isContainer b = true)) ∧
    jsLooseEq .null .undef = .ok true ∧
    jsLooseEq .undef .null = .ok true := by
  refine ⟨?_, ?_, ?_⟩
  · intro a b
    constructor
    · rintro ⟨s, hs⟩
      by_contra hc
      push_neg at hc
      obtain ⟨r, hr⟩ := jsLooseEq_ok_of_not_container (boolRank a + boolRank b) a b
        le_rfl (by simpa using hc.1) (by simpa using hc.2)
      rw [hr] at hs
      exact Except.noConfusion hs
    · intro h
      refine ⟨"Loose equality with objects/arrays is not supported. Use strict equality.", ?_⟩
      unfold jsLooseEq
      rw [if_pos (by rcases h with h | h <;> simp [h])]
  · simp [jsLooseEq, isContainer, isNaNV, isNullV, isUndefV]
  · simp [jsLooseEq, isContainer, isNaNV, isNullV, isUndefV]

/-- Closed witness for C4: a container operand errors, per the iff. -/
theorem C4_js_loose_eq_container_error_witness :
    ∃ s, jsLooseEq (.obj 0 []) .null = .error s :=
  (C4_js_loose_eq_container_error.1 (.obj 0 []) .null).mpr (Or.inl rfl)

/-- Membership tests are unchanged by dropping the g characters, for any
character other than g. -/
theorem contains_filterG (l : List Char) (c : Char) (h : (c == 'g') = false) :
    (l.filter (fun x => !(x == 'g'))).contains c = l.contains c := by
  have hc : c ≠ 'g' := by simpa using h
  induction l with
  | nil => rfl
  | cons d t ih =>
      by_cases hd : d = 'g'
      · subst hd
        simp [List.filter_cons, List.contains_cons, ih, hc]
      · simp [List.filter_cons, hd, List.contains_cons, ih, hc]

/-- Dropping the g characters is idempotent. -/
theorem filterG_idem (l : List Char) :
    (l.filter (fun x => !(x == 'g'))).filter (fun x => !(x == 'g')) =
      l.filter (fun x => !(x == 'g')) := by
  induction l with
  | nil => rfl
  | cons d t ih =>
      by_cases hd : d = 'g' <;> simp_all [List.filter_cons]

/-- C5 (amended): compile_js_regex silently drops every g flag (any flags
string compiles exactly as its g-free residue); it errors exactly when the
flags contain y (sticky) or u (full-unicode); otherwise it compiles with the
case-insensitive, multiline, and dot-matches-newline modifiers set from i, m,
and s membership — so every other flag character is silently ignored, not
rejected. -/
theorem C5_compile_js_regex_flags :
    (∀ p fs : String, compileJsRegex p fs =
        compileJsRegex p ⟨fs.toList.filter (fun c => !(c == 'g'))⟩) ∧
    (∀ p fs : String, (∃ s, compileJsRegex p fs = .error s) ↔
        (fs.toList.contains 'y' = true ∨ fs.toList.contains 'u' = true)) ∧
    (∀ p fs : String, fs.toList.contains 'y' = false →
        fs.toList.contains 'u' = false →
        compileJsRegex p fs = .ok ⟨p, fs.toList.contains 'i',
          fs.toList.contains 'm', fs.toList.contains 's'⟩) := by
  refine ⟨?_, ?_, ?_⟩
  · intro p fs
    show compileJsRegex p fs =
      compileJsRegex p (String.mk (fs.toList.filter (fun c => !(c == 'g'))))
    simp only [compileJsRegex]
    rw [show (String.mk (fs.toList.filter (fun c => !(c == 'g')))).toList =
      fs.toList.filter (fun c => !(c == 'g')) from rfl, filterG_idem]
  · intro p fs
    have cy := contains_filterG fs.toList 'y' (by decide)
    have cu := contains_filterG fs.toList 'u' (by decide)
    constructor
    · rintro ⟨s, hs⟩
      by_contra hc
      push_neg at hc
      have hy : fs.toList.contains 'y' = false := by simpa using hc.1
      have hu : fs.toList.contains 'u' = false := by simpa using hc.2
      rw [show compileJsRegex p fs =
          .ok ⟨p, (fs.toList.filter (fun c => !(c == 'g'))).contains 'i',
            (fs.toList.filter (fun c => !(c == 'g'))).contains 'm',
            (fs.toList.filter (fun c => !(c == 'g'))).contains 's'⟩ from by
        simp only [compileJsRegex, cy, cu, hy, hu, Bool.false_eq_true, if_false]] at hs
      exact Except.noConfusion hs
    · rintro (h | h)
      · exact ⟨"Regex sticky flag y is not supported.",
          by simp only [compileJsRegex, cy, h, if_true]⟩
      · by_cases hy : fs.toList.contains 'y' = true
        · exact ⟨"Regex sticky flag y is not supported.",
            by simp only [compileJsRegex, cy, hy, if_true]⟩
        · have hy2 : fs.toList.contains 'y' = false := by simpa using hy
          exact ⟨"Regex unicode flag u is not supported.",
            by simp only [compileJsRegex, cy, cu, h, hy2,
              Bool.false_eq_true, if_false, if_true]⟩
  · intro p fs hy hu
    have cy := contains_filterG fs.toList 'y' (by decide)
    have cu := contains_filterG fs.toList 'u' (by decide)
    have ci := contains_filterG fs.toList 'i' (by decide)
    have cm := contains_filterG fs.toList 'm' (by decide)
    have cs2 := contains_filterG fs.toList 's' (by decide)
    simp only [compileJsRegex, cy, cu, ci, cm, cs2, hy, hu,
      Bool.false_eq_true, if_false]

/-- C5 counterexample to the claim as stated: x is a flag character other
than the supported g/i/m/s set (and not y or u), yet compile_js_regex
compiles successfully and ignores it instead of raising a configuration
error. -/
theorem C5_counterexample_unknown_flag_ignored :
    compileJsRegex "abc" "x" = .ok ⟨"abc", false, false, false⟩ := by
  rfl

/-- Closed witness for C5 at concrete flags: gims compiles with all three
modifiers set. -/
theorem C5_compile_js_regex_flags_witness :
    compileJsRegex "a" "gims" = .ok ⟨"a", ("gims").toList.contains 'i',
      ("gims").toList.contains 'm', ("gims").toList.contains 's'⟩ :=
  C5_compile_js_regex_flags.2.2 "a" "gims" (by decide) (by decide)

/-!  ## Decimal rendering and valuation lemmas  -/

/-- Valuation of one rendered digit character. -/
theorem digitChar_val {d : ℕ} (h : d < 10) : (Nat.digitChar d).toNat - 48 = d := by
  interval_cases d <;> rfl

/-- Rendered digits are digit characters. -/
theorem digitChar_isDigit {d : ℕ} (h : d < 10) : (Nat.digitChar d).isDigit = true := by
  interval_cases d <;> rfl

/-- Valuation of a rendered digit list, with an arbitrary accumulator. -/
theorem foldl_render (L : List ℕ) (h : ∀ d ∈ L, d < 10) (a : ℕ) :
    List.foldl (fun acc c => 10 * acc + (c.toNat - 48)) a (L.reverse.map Nat.digitChar) =
      a * 10 ^ L.length + Nat.ofDigits 10 L := by
  induction L generalizing a with
  | nil => simp
  | cons d t ih =>
      rw [List.reverse_cons, List.map_append, List.foldl_append]
      have hd : d < 10 := h d (List.mem_cons_self _ _)
      have ht : ∀ x ∈ t, x < 10 := fun x hx => h x (List.mem_cons_of_mem _ hx)
      simp only [List.map_cons, List.map_nil, List.foldl_cons, List.foldl_nil]
      rw [ih ht, digitChar_val hd, Nat.ofDigits_cons, List.length_cons, pow_succ]
      ring

/-- digitsVal inverts natDecRender. -/
theorem digitsVal_natDecRender (n : ℕ) : digitsVal (natDecRender n) = n := by
  by_cases h : n = 0
  · subst h; rfl
  · unfold natDecRender digitsVal
    rw [if_neg h, foldl_render _ (fun d hd => Nat.digits_lt_base (by norm_num) hd)]
    simp [Nat.ofDigits_digits]

/-- natDecRender is injective. -/
theorem natDecRender_inj {m n : ℕ} (h : natDecRender m = natDecRender n) : m = n := by
  have hm := digitsVal_natDecRender m
  rw [h, digitsVal_natDecRender] at hm
  omega

/-- pyStrNat is injective. -/
theorem pyStrNat_inj {m n : ℕ} (h : pyStrNat m = pyStrNat n) : m = n :=
  natDecRender_inj (congrArg String.data h)

/-!  ## js_delete / js_for_in_keys (C7)  -/

/-- C7 counterexample to the claim as stated: the float key 1.0 is an
in-range numeric-form index for a two-element array, yet js_delete leaves the
array unchanged - the host rejects non-integer sequence indices with a
TypeError that js_delete swallows - so the slot is NOT overwritten with
Undefined (it still holds 8), while delete still reports true. -/
theorem C7_counterexample_float_key_noop :
    jsDelete (.arr 0 [.num (.i 7), .num (.i 8)]) (.num (.f (.fin 1))) =
      (true, .arr 0 [.num (.i 7), .num (.i 8)]) ∧
    ([Value.num (.i 7), .num (.i 8)].getD 1 .undef ≠ .undef) :=
  ⟨rfl, fun h => Value.noConfusion h⟩

/-- C7 (amended): on an array, an in-range key that is an integer-typed
number or a bool (False indexing 0, True indexing 1), or a string parsing as
an in-range integer, returns true and overwrites that slot with Undefined -
same length, later elements unshifted - and a subsequent js_for_in_keys never
emits that index; an out-of-range integer key or a non-numeric string key is
a no-op returning true, as is EVERY float-typed numeric key (the host
TypeError for non-integer sequence indices is swallowed) and any
non-container base. -/
theorem C7_js_delete_array_holes :
    (∀ (id : ℕ) (elems : List Value) (n : ℕ), n < elems.length →
        jsDelete (.arr id elems) (.num (.i n)) = (true, .arr id (elems.set n .undef))) ∧
    (∀ (id : ℕ) (elems : List Value) (s : String) (n : ℕ),
        pyIntParse s = some (n : ℤ) → n < elems.length →
        jsDelete (.arr id elems) (.str s) = (true, .arr id (elems.set n .undef))) ∧
    (∀ (id : ℕ) (elems : List Value) (b : Bool),
        (if b then 1 else 0) < elems.length →
        jsDelete (.arr id elems) (.bool b) =
          (true, .arr id (elems.set (if b then 1 else 0) .undef))) ∧
    (∀ (elems : List Value) (n : ℕ), (elems.set n .undef).length = elems.length) ∧
    (∀ (elems : List Value) (n j : ℕ), j ≠ n →
        (elems.set n .undef).getD j .undef = elems.getD j .undef) ∧
    (∀ (elems : List Value) (n : ℕ), n < elems.length →
        (elems.set n .undef).getD n .undef = .undef) ∧
    (∀ (id : ℕ) (elems : List Value) (n : ℕ), n < elems.length →
        pyStrNat n ∉ jsForInKeys (.arr id (elems.set n .undef))) ∧
    (∀ (id : ℕ) (elems : List Value) (k : ℤ), (k < 0 ∨ (elems.length : ℤ) ≤ k) →
        jsDelete (.arr id elems) (.num (.i k)) = (true, .arr id elems)) ∧
    (∀ (id : ℕ) (elems : List Value) (s : String), pyIntParse s = none →
        jsDelete (.arr id elems) (.str s) = (true, .arr id elems)) ∧
    (∀ (id : ℕ) (elems : List Value) (x : JSF),
        jsDelete (.arr id elems) (.num (.f x)) = (true, .arr id elems)) ∧
    (∀ (base key : Value), isContainer base = false → jsDelete base key = (true, base)) := by
  refine ⟨?_, ?_, ?_, ?_, ?_, ?_, ?_, ?_, ?_, ?_, ?_⟩
  · intro id elems n h
    simp only [jsDelete, listKeyIndex]
    rw [if_pos ⟨Int.natCast_nonneg n, by exact_mod_cast h⟩]
    simp
  · intro id elems s n hp h
    simp only [jsDelete, listKeyIndex, hp]
    rw [if_pos ⟨Int.natCast_nonneg n, by exact_mod_cast h⟩]
    simp
  · intro id elems b h
    cases b
    · simp only [if_neg Bool.false_ne_true] at h ⊢
      simp only [jsDelete, listKeyIndex, if_neg Bool.false_ne_true]
      rw [if_pos ⟨le_refl (0 : ℤ), by exact_mod_cast h⟩]
      simp
    · simp only [if_pos rfl] at h ⊢
      simp only [jsDelete, listKeyIndex, if_pos rfl]
      rw [if_pos ⟨by omega, by exact_mod_cast h⟩]
      simp
  · intro elems n
    simp
  · intro elems n j hj
    rcases Nat.lt_or_ge j elems.length with h | h
    · rw [List.getD_eq_getElem _ _ (by simpa using h),
        List.getD_eq_getElem _ _ h, List.getElem_set_ne (by omega)]
    · rw [List.getD_eq_default _ _ (by simpa using h),
        List.getD_eq_default _ _ h]
  · intro elems n h
    rw [List.getD_eq_getElem _ _ (by simpa using h), List.getElem_set_self]
  · intro id elems n h hmem
    simp only [jsForInKeys, List.mem_map] at hmem
    obtain ⟨i, hi, hstr⟩ := hmem
    have hin : i = n := pyStrNat_inj hstr
    subst hin
    rw [List.mem_filter] at hi
    have hlen : i < elems.length := by simpa using List.mem_range.mp hi.1
    have : (elems.set i .undef).getD i .undef = .undef := by
      rw [List.getD_eq_getElem _ _ (by simpa using hlen), List.getElem_set_self]
    rw [this] at hi
    simpa [isUndefV] using hi.2
  · intro id elems k h
    simp only [jsDelete, listKeyIndex]
    rw [if_neg (by omega)]
  · intro id elems s hp
    simp only [jsDelete, listKeyIndex, hp]
  · intro id elems x
    rfl
  · intro base key h
    cases base <;> first | rfl | simp [isContainer] at h

/-- Closed witness for C7 at concrete inputs: deleting index 1 of a
three-element array by int key, by bool key True and by string key punches a
hole. -/
theorem C7_js_delete_array_holes_witness :
    jsDelete (.arr 0 [.num (.i 7), .num (.i 8), .num (.i 9)]) (.num (.i 1)) =
      (true, .arr 0 ([Value.num (.i 7), .num (.i 8), .num (.i 9)].set 1 .undef)) ∧
    jsDelete (.arr 0 [.num (.i 7), .num (.i 8), .num (.i 9)]) (.str "1") =
      (true, .arr 0 ([Value.num (.i 7), .num (.i 8), .num (.i 9)].set 1 .undef)) ∧
    jsDelete (.arr 0 [.num (.i 7), .num (.i 8), .num (.i 9)]) (.bool true) =
      (true, .arr 0 ([Value.num (.i 7), .num (.i 8), .num (.i 9)].set 1 .undef)) ∧
    pyStrNat 1 ∉ jsForInKeys (.arr 0 ([Value.num (.i 7), .num (.i 8), .num (.i 9)].set 1 .undef)) := by
  refine ⟨?_, ?_, ?_, ?_⟩
  · exact C7_js_delete_array_holes.1 0 _ 1 (by decide)
  · exact C7_js_delete_array_holes.2.1 0 _ "1" 1 (by decide) (by decide)
  · exact C7_js_delete_array_holes.2.2.1 0 _ true (by decide)
  · exact C7_js_delete_array_holes.2.2.2.2.2.2.1 0 _ 1 (by decide)

/-!  ## js_substring (C8)  -/

/-- The ordered pair produced by the swap-on-inversion step is symmetric in
its two inputs. -/
theorem swapPair (a b : ℤ) :
    (if b < a then (b, a) else (a, b)) = (if a < b then (a, b) else (b, a)) := by
  rcases lt_trichotomy a b with h | h | h
  · rw [if_neg (by omega), if_pos h]
  · subst h; simp
  · rw [if_pos h, if_neg (by omega)]

/-- After the NaN guard, int() succeeds on any non-infinite number. -/
theorem pyIntOfNum_guard (x : JSNum) (hx : x.isInf = false) :
    ∃ i, pyIntOfNum (if x.isNaN then JSNum.i 0 else x) = some i := by
  cases x with
  | i n => exact ⟨n, rfl⟩
  | f v =>
      cases v with
      | nan => exact ⟨0, rfl⟩
      | pinf => simp [JSNum.isInf] at hx
      | ninf => simp [JSNum.isInf] at hx
      | fin q => exact ⟨ratTrunc q, rfl⟩

/-- C8 counterexample to the claim as stated: Infinity is a numeric bound,
but instead of being clamped into [0, length] it makes the host int()
conversion raise an uncaught OverflowError (modelled as none), so a numeric
bound can produce an error. -/
theorem C8_counterexample_infinite_bound_error :
    jsSubstring "hello" (.num (.f .pinf)) (.num (.i 3)) = none := rfl

/-- C8 (amended): for finite-or-NaN numeric bounds, js_substring guards each
NaN bound independently to 0, defaults a missing (undefined or null) end to
the string length, clamps an integer bound into [0, length] (below-zero acts
as 0, above-length as length), and is symmetric in its two bounds (the
swap-on-inversion), so for such bounds argument order never produces an error
or an empty result that the swapped order would not; substring("hello",4,1) =
"ell" and substring("hello",-1,3) = "hel".  An infinite bound, by contrast,
raises (see the counterexample). -/
theorem C8_js_substring_bounds :
    (∀ (s : String) (e : Value), jsSubstring s (.num (.f .nan)) e =
        jsSubstring s (.num (.i 0)) e) ∧
    (∀ (s : String) (a : Value), jsSubstring s a (.num (.f .nan)) =
        jsSubstring s a (.num (.i 0))) ∧
    (∀ (s : String) (a : Value), jsSubstring s a .undef =
        jsSubstring s a (.num (.i s.length)) ∧
      jsSubstring s a .null = jsSubstring s a (.num (.i s.length))) ∧
    (∀ (s : String) (n : ℤ) (e : Value), n ≤ 0 →
        jsSubstring s (.num (.i n)) e = jsSubstring s (.num (.i 0)) e) ∧
    (∀ (s : String) (n : ℤ) (e : Value), (s.length : ℤ) ≤ n →
        jsSubstring s (.num (.i n)) e = jsSubstring s (.num (.i s.length)) e) ∧
    (∀ (s : String) (x y : JSNum), jsSubstring s (.num x) (.num y) =
        jsSubstring s (.num y) (.num x)) ∧
    (∀ (s : String) (x y : JSNum), x.isInf = false → y.isInf = false →
        ∃ r, jsSubstring s (.num x) (.num y) = some r) ∧
    jsSubstring "hello" (.num (.i 4)) (.num (.i 1)) = some "ell" ∧
    jsSubstring "hello" (.num (.i (-1))) (.num (.i 3)) = some "hel" := by
  refine ⟨fun s e => rfl, fun s a => rfl, fun s a => ⟨rfl, rfl⟩, ?_, ?_, ?_, ?_, rfl, rfl⟩
  · intro s n e hn
    have hc : clampIdx n s.length = clampIdx 0 s.length := by
      unfold clampIdx; omega
    show substringCore s (.i n) (substringEndNum s e) =
      substringCore s (.i 0) (substringEndNum s e)
    obtain ⟨oe, he⟩ : ∃ o, pyIntOfNum (substringEndNum s e) = o := ⟨_, rfl⟩
    have e1 : pyIntOfNum (JSNum.i n) = some n := rfl
    have e2 : pyIntOfNum (JSNum.i 0) = some 0 := rfl
    simp only [substringCore, he, e1, e2]
    cases oe <;> simp [hc]
  · intro s n e hn
    have hc : clampIdx n s.length = clampIdx s.length s.length := by
      unfold clampIdx; omega
    show substringCore s (.i n) (substringEndNum s e) =
      substringCore s (.i s.length) (substringEndNum s e)
    obtain ⟨oe, he⟩ : ∃ o, pyIntOfNum (substringEndNum s e) = o := ⟨_, rfl⟩
    have e1 : pyIntOfNum (JSNum.i n) = some n := rfl
    have e2 : pyIntOfNum (JSNum.i s.length) = some s.length := rfl
    simp only [substringCore, he, e1, e2]
    cases oe <;> simp [hc]
  · intro s x y
    show substringCore s (if x.isNaN then JSNum.i 0 else x)
        (if y.isNaN then JSNum.i 0 else y) =
      substringCore s (if y.isNaN then JSNum.i 0 else y)
        (if x.isNaN then JSNum.i 0 else x)
    obtain ⟨ox, hx⟩ : ∃ o, pyIntOfNum (if x.isNaN then JSNum.i 0 else x) = o := ⟨_, rfl⟩
    obtain ⟨oy, hy⟩ : ∃ o, pyIntOfNum (if y.isNaN then JSNum.i 0 else y) = o := ⟨_, rfl⟩
    simp only [substringCore, hx, hy]
    cases ox <;> cases oy <;> try rfl
    rename_i si ei
    simp only [swapPair (clampIdx si s.length) (clampIdx ei s.length)]
  · intro s x y hx hy
    obtain ⟨i1, h1⟩ := pyIntOfNum_guard x hx
    obtain ⟨i2, h2⟩ := pyIntOfNum_guard y hy
    show ∃ r, substringCore s (if x.isNaN then JSNum.i 0 else x)
        (if y.isNaN then JSNum.i 0 else y) = some r
    simp only [substringCore, h1, h2]
    exact ⟨_, rfl⟩

/-- Closed witness for C8 at concrete inputs: clamping a negative start, and
totality at finite bounds in inverted order. -/
theorem C8_js_substring_bounds_witness :
    jsSubstring "hello" (.num (.i (-2))) (.num (.i 3)) =
      jsSubstring "hello" (.num (.i 0)) (.num (.i 3)) ∧
    (∃ r, jsSubstring "hello" (.num (.i 4)) (.num (.i 1)) = some r) := by
  constructor
  · exact C8_js_substring_bounds.2.2.2.1 "hello" (-2) (.num (.i 3)) (by omega)
  · exact C8_js_substring_bounds.2.2.2.2.2.2.1 "hello" (.i 4) (.i 1) rfl rfl

/-!  ## Whitespace stripping lemmas  -/

/-- pyStripL is a left dropWhile followed by a right one. -/
theorem pyStripL_eq_rdrop (l : List Char) :
    pyStripL l = List.rdropWhile isPySpace (l.dropWhile isPySpace) := rfl

/-- Stripping is idempotent. -/
theorem pyStripL_idem (l : List Char) : pyStripL (pyStripL l) = pyStripL l := by
  rw [pyStripL_eq_rdrop, pyStripL_eq_rdrop]
  have h1 : (List.rdropWhile isPySpace (l.dropWhile isPySpace)).dropWhile isPySpace
      = List.rdropWhile isPySpace (l.dropWhile isPySpace) := by
    rw [List.dropWhile_eq_self_iff]
    intro hl
    have hpre := List.rdropWhile_prefix isPySpace (l.dropWhile isPySpace)
    have hlen : 0 < (l.dropWhile isPySpace).length := lt_of_lt_of_le hl hpre.length_le
    have hget : (List.rdropWhile isPySpace (l.dropWhile isPySpace))[0] =
        (l.dropWhile isPySpace)[0] :=
      List.IsPrefix.getElem hpre hl
    have hnot := List.dropWhile_get_zero_not isPySpace l hlen
    simp only [List.get_eq_getElem] at hnot ⊢
    rw [hget]
    exact hnot
  rw [h1, List.rdropWhile_idempotent]

/-- A list of non-whitespace characters strips to itself. -/
theorem pyStripL_eq_self (l : List Char) (h : ∀ c ∈ l, isPySpace c = false) :
    pyStripL l = l := by
  rw [pyStripL_eq_rdrop]
  have h1 : l.dropWhile isPySpace = l := by
    rw [List.dropWhile_eq_self_iff]
    intro hl
    simp [h _ (List.getElem_mem hl)]
  rw [h1, List.rdropWhile_eq_self_iff]
  intro hl
  simp [h _ (List.getLast_mem hl)]

/-!  ## Parser soundness lemmas  -/

/-- The optional-sign step either leaves the list alone or removes one
leading sign character. -/
theorem pyTakeSign_cases (l : List Char) :
    (pyTakeSign l).2 = l ∨
    ∃ c, (c = '+' ∨ c = '-') ∧ l = c :: (pyTakeSign l).2 := by
  cases l with
  | nil => exact Or.inl rfl
  | cons c r =>
      by_cases h1 : c = '-'
      · subst h1
        exact Or.inr ⟨'-', Or.inr rfl, by simp [pyTakeSign]⟩
      · by_cases h2 : c = '+'
        · subst h2
          exact Or.inr ⟨'+', Or.inl rfl, by simp [pyTakeSign]⟩
        · left
          simp [pyTakeSign, h1, h2]

/-- A valid digit group contains only digits and underscores. -/
theorem validDigitsU_chars {l : List Char} (h : validDigitsU l = true) :
    ∀ c ∈ l, c.isDigit = true ∨ c = '_' := by
  intro c hc
  unfold validDigitsU at h
  simp only [Bool.and_eq_true] at h
  have hall := h.1.2
  rw [List.all_eq_true] at hall
  have := hall c hc
  simp only [Bool.or_eq_true, beq_iff_eq] at this
  exact this

/-- Splitting at the first separator: either there is none and the first
component is the whole list, or the list is first component, separator,
remainder, with the separator satisfying p. -/
theorem splitAtFirst_shape (p : Char → Bool) (l : List Char) :
    ((splitAtFirst p l).2 = none ∧ (splitAtFirst p l).1 = l) ∨
    ∃ c r, (splitAtFirst p l).2 = some (c, r) ∧
      l = (splitAtFirst p l).1 ++ c :: r ∧ p c = true := by
  induction l with
  | nil => exact Or.inl ⟨rfl, rfl⟩
  | cons c cs ih =>
      by_cases hc : p c = true
      · exact Or.inr ⟨c, cs, by simp [splitAtFirst, hc], by simp [splitAtFirst, hc], hc⟩
      · have hc2 : p c = false := by simpa using hc
        rcases ih with ⟨h1, h2⟩ | ⟨d, r, h1, h2, h3⟩
        · exact Or.inl ⟨by simp [splitAtFirst, hc2, h1], by simp [splitAtFirst, hc2, h2]⟩
        · refine Or.inr ⟨d, r, by simp [splitAtFirst, hc2, h1], ?_, h3⟩
          have : (splitAtFirst p (c :: cs)).1 = c :: (splitAtFirst p cs).1 := by
            simp [splitAtFirst, hc2]
          rw [this, List.cons_append, ← h2]

/-- Characters a successful int() parse allows in the stripped input: digits,
underscores, and a sign. -/
theorem pyIntParse_chars {s : String} {n : ℤ} (h : pyIntParse s = some n) :
    ∀ c ∈ pyStripL s.toList, c.isDigit = true ∨ c = '_' ∨ c = '+' ∨ c = '-' := by
  intro c hc
  simp only [pyIntParse] at h
  by_cases hv : validDigitsU (pyTakeSign (pyStripL s.toList)).2 = true
  · have hchars := validDigitsU_chars hv
    rcases pyTakeSign_cases (pyStripL s.toList) with heq | ⟨d, hd, heq⟩
    · rw [← heq] at hc
      rcases hchars c hc with h1 | h1
      · exact Or.inl h1
      · exact Or.inr (Or.inl h1)
    · rw [heq] at hc
      rcases List.mem_cons.mp hc with rfl | hc2
      · rcases hd with rfl | rfl
        · exact Or.inr (Or.inr (Or.inl rfl))
        · exact Or.inr (Or.inr (Or.inr rfl))
      · rcases hchars c hc2 with h1 | h1
        · exact Or.inl h1
        · exact Or.inr (Or.inl h1)
  · rw [if_neg hv] at h
    exact Option.noConfusion h

/-- Disjunction extraction for Bool or. -/
theorem orE {a b : Bool} (h : (a || b) = true) : a = true ∨ b = true := by
  rcases a <;> rcases b <;> simp_all

/-- Conjunction extraction for Bool and. -/
theorem andE {a b : Bool} (h : (a && b) = true) : a = true ∧ b = true := by
  rcases a <;> rcases b <;> simp_all

/-- The two components of a valid mantissa contain only digits and
underscores. -/
theorem mantOk_chars (ip fp : List Char)
    (hok : ((ip.isEmpty && validDigitsU fp) ||
      (!ip.isEmpty && validDigitsU ip && (fp.isEmpty || validDigitsU fp))) = true) :
    (∀ c ∈ ip, c.isDigit = true ∨ c = '_') ∧
    (∀ c ∈ fp, c.isDigit = true ∨ c = '_') := by
  rcases orE hok with h1 | h1
  · obtain ⟨he, hv⟩ := andE h1
    exact ⟨fun c hcc => absurd hcc (by simp [List.isEmpty_iff.mp he]),
      validDigitsU_chars hv⟩
  · obtain ⟨h2, h3⟩ := andE h1
    obtain ⟨h4, hvip⟩ := andE h2
    refine ⟨validDigitsU_chars hvip, ?_⟩
    rcases orE h3 with hfe | hfv
    · exact fun c hcc => absurd hcc (by simp [List.isEmpty_iff.mp hfe])
    · exact validDigitsU_chars hfv

/-- Every character of a mantissa that passes the okMant validation is a
digit, an underscore, or the dot. -/
theorem mant_chars_of_ok (m : List Char)
    (hok : (((splitAtFirst (fun x => x == '.') m).1.isEmpty &&
        validDigitsU (((splitAtFirst (fun x => x == '.') m).2.map Prod.snd).getD [])) ||
      (!(splitAtFirst (fun x => x == '.') m).1.isEmpty &&
        validDigitsU (splitAtFirst (fun x => x == '.') m).1 &&
          ((((splitAtFirst (fun x => x == '.') m).2.map Prod.snd).getD []).isEmpty ||
            validDigitsU (((splitAtFirst (fun x => x == '.') m).2.map Prod.snd).getD [])))) = true) :
    ∀ c ∈ m, c.isDigit = true ∨ c = '_' ∨ c = '.' := by
  intro c hcm
  have hmant := mantOk_chars _ _ hok
  rcases splitAtFirst_shape (fun x => x == '.') m with ⟨hd2, hd1⟩ | ⟨d2, r2, hd2, hdeq, hdp⟩
  · rw [← hd1] at hcm
    rcases hmant.1 c hcm with h1 | h1
    · exact Or.inl h1
    · exact Or.inr (Or.inl h1)
  · rw [hdeq] at hcm
    rcases List.mem_append.mp hcm with hc1 | hc1
    · rcases hmant.1 c hc1 with h1 | h1
      · exact Or.inl h1
      · exact Or.inr (Or.inl h1)
    · rcases List.mem_cons.mp hc1 with rfl | hc2
      · exact Or.inr (Or.inr (by simpa using hdp))
      · have hfp : c ∈ ((splitAtFirst (fun x => x == '.') m).2.map Prod.snd).getD [] := by
          rw [hd2]
          simpa using hc2
        rcases hmant.2 c hfp with h1 | h1
        · exact Or.inl h1
        · exact Or.inr (Or.inl h1)

/-- Characters a successful float() parse allows in the stripped input:
digits, underscores, signs, a dot, and an exponent marker. -/
theorem pyFloatParse_chars {s : String} {q : ℚ} (h : pyFloatParse s = some q) :
    ∀ c ∈ pyStripL s.toList, c.isDigit = true ∨ c = '_' ∨ c = '+' ∨ c = '-' ∨
      c = '.' ∨ c = 'e' ∨ c = 'E' := by
  intro c hc
  simp only [pyFloatParse] at h
  have hrest : c ∈ (pyTakeSign (pyStripL s.toList)).2 ∨ c = '+' ∨ c = '-' := by
    rcases pyTakeSign_cases (pyStripL s.toList) with heq | ⟨d, hd, heq⟩
    · rw [← heq] at hc
      exact Or.inl hc
    · rw [heq] at hc
      rcases List.mem_cons.mp hc with rfl | hc2
      · rcases hd with rfl | rfl
        · exact Or.inr (Or.inl rfl)
        · exact Or.inr (Or.inr rfl)
      · exact Or.inl hc2
  rcases hrest with hrest | hs
  swap
  · rcases hs with rfl | rfl
    · exact Or.inr (Or.inr (Or.inl rfl))
    · exact Or.inr (Or.inr (Or.inr (Or.inl rfl)))
  rcases splitAtFirst_shape (fun x => x == 'e' || x == 'E')
      (pyTakeSign (pyStripL s.toList)).2 with ⟨he2, he1⟩ | ⟨d, r, he2, heq, hp⟩
  · simp only [he2] at h
    split at h
    · rename_i hok
      rw [← he1] at hrest
      rcases mant_chars_of_ok _ hok c hrest with h1 | h1 | h1
      · exact Or.inl h1
      · exact Or.inr (Or.inl h1)
      · exact Or.inr (Or.inr (Or.inr (Or.inr (Or.inl h1))))
    · exact Option.noConfusion h
  · simp only [he2] at h
    split at h
    · rename_i hcond
      obtain ⟨hok, hev⟩ := andE hcond
      rw [heq] at hrest
      rcases List.mem_append.mp hrest with hc1 | hc1
      · rcases mant_chars_of_ok _ hok c hc1 with h1 | h1 | h1
        · exact Or.inl h1
        · exact Or.inr (Or.inl h1)
        · exact Or.inr (Or.inr (Or.inr (Or.inr (Or.inl h1))))
      · rcases List.mem_cons.mp hc1 with rfl | hc2
        · rcases orE hp with h1 | h1
          · exact Or.inr (Or.inr (Or.inr (Or.inr (Or.inr (Or.inl (by simpa using h1))))))
          · exact Or.inr (Or.inr (Or.inr (Or.inr (Or.inr (Or.inr (by simpa using h1))))))
        · rcases pyTakeSign_cases r with heq2 | ⟨d3, hd3, heq2⟩
          · rw [← heq2] at hc2
            rcases validDigitsU_chars hev c hc2 with h1 | h1
            · exact Or.inl h1
            · exact Or.inr (Or.inl h1)
          · rw [heq2] at hc2
            rcases List.mem_cons.mp hc2 with rfl | hc3
            · rcases hd3 with rfl | rfl
              · exact Or.inr (Or.inr (Or.inl rfl))
              · exact Or.inr (Or.inr (Or.inr (Or.inl rfl)))
            · rcases validDigitsU_chars hev c hc3 with h1 | h1
              · exact Or.inl h1
              · exact Or.inr (Or.inl h1)
    · exact Option.noConfusion h

/-- js_to_number maps a string to NaN whenever its stripped form contains a
character that neither parser branch accepts. -/
theorem jsToNumber_str_nan_of_badchar (s : String) (c : Char)
    (hc : c ∈ pyStripL s.toList) (h1 : c.isDigit = false) (h2 : c ≠ '_')
    (h3 : c ≠ '+') (h4 : c ≠ '-') (h5 : c ≠ '.') (h6 : c ≠ 'e') (h7 : c ≠ 'E') :
    jsToNumber (.str s) = .f .nan := by
  have hne : pyStrip s ≠ "" := by
    intro he
    have h0 : pyStripL s.toList = [] := congrArg String.data he
    rw [h0] at hc
    exact absurd hc (List.not_mem_nil c)
  have hstrip : pyStripL (pyStrip s).toList = pyStripL s.toList := pyStripL_idem s.toList
  have hcc : c ∈ pyStripL (pyStrip s).toList := by rw [hstrip]; exact hc
  simp only [jsToNumber]
  rw [if_neg hne]
  split
  · obtain ⟨oq, hq⟩ : ∃ o, pyFloatParse (pyStrip s) = o := ⟨_, rfl⟩
    cases oq with
    | none => rw [hq]
    | some q =>
        exfalso
        rcases pyFloatParse_chars hq c hcc with x | x | x | x | x | x | x <;> simp_all
  · obtain ⟨oq, hq⟩ : ∃ o, pyIntParse (pyStrip s) = o := ⟨_, rfl⟩
    cases oq with
    | none => rw [hq]
    | some n =>
        exfalso
        rcases pyIntParse_chars hq c hcc with x | x | x | x <;> simp_all

/-- C6: js_to_number maps Null to 0, Undefined to NaN, booleans to 1/0,
numbers to themselves, a blank or whitespace-only string to 0, any other
string through the decimal integer-or-floating parse (a dot or exponent
marker selects the floating form) with NaN on parse failure; hexadecimal and
0o-octal literal strings always give NaN; and containers and functions give
NaN. -/
theorem C6_js_to_number :
    jsToNumber .null = .i 0 ∧
    jsToNumber .undef = .f .nan ∧
    (∀ b, jsToNumber (.bool b) = .i (if b then 1 else 0)) ∧
    (∀ n, jsToNumber (.num n) = n) ∧
    (∀ s : String, pyStrip s = "" → jsToNumber (.str s) = .i 0) ∧
    (∀ (s : String) (q : ℚ), pyStrip s ≠ "" →
        ((pyStrip s).toList.any (fun c => c == '.' || c == 'e' || c == 'E')) = true →
        pyFloatParse (pyStrip s) = some q → jsToNumber (.str s) = .f (.fin q)) ∧
    (∀ (s : String) (n : ℤ), pyStrip s ≠ "" →
        ((pyStrip s).toList.any (fun c => c == '.' || c == 'e' || c == 'E')) = false →
        pyIntParse (pyStrip s) = some n → jsToNumber (.str s) = .i n) ∧
    (∀ s : String, pyStrip s ≠ "" →
        pyFloatParse (pyStrip s) = none → pyIntParse (pyStrip s) = none →
        jsToNumber (.str s) = .f .nan) ∧
    (∀ s : String, isHexLiteral s = true → jsToNumber (.str s) = .f .nan) ∧
    (∀ s : String, isOctLiteral s = true → jsToNumber (.str s) = .f .nan) ∧
    (∀ id elems, jsToNumber (.arr id elems) = .f .nan) ∧
    (∀ id fields, jsToNumber (.obj id fields) = .f .nan) ∧
    (∀ id, jsToNumber (.func id) = .f .nan) := by
  refine ⟨rfl, rfl, fun b => rfl, fun n => rfl, ?_, ?_, ?_, ?_, ?_, ?_,
    fun id elems => rfl, fun id fields => rfl, fun id => rfl⟩
  · intro s h
    simp only [jsToNumber]
    rw [if_pos h]
  · intro s q h1 h2 h3
    simp only [jsToNumber]
    rw [if_neg h1, if_pos h2, h3]
  · intro s n h1 h2 h3
    simp only [jsToNumber]
    rw [if_neg h1, if_neg (by rw [h2]; exact Bool.false_ne_true), h3]
  · intro s h1 h2 h3
    simp only [jsToNumber]
    rw [if_neg h1]
    split
    · rw [h2]
    · rw [h3]
  · intro s hhex
    unfold isHexLiteral at hhex
    split at hhex
    · rename_i c tail heq
      have hmem : c ∈ pyStripL s.toList := by
        rcases pyTakeSign_cases (pyStripL s.toList) with h0 | ⟨d, hd, h0⟩
        · have : c ∈ (pyTakeSign (pyStripL s.toList)).2 := by rw [heq]; simp
          rwa [h0] at this
        · rw [h0, heq]
          simp
      rcases orE hhex with hcx | hcx
      · have : c = 'x' := by simpa using hcx
        subst this
        exact jsToNumber_str_nan_of_badchar s 'x' hmem (by decide) (by decide)
          (by decide) (by decide) (by decide) (by decide) (by decide)
      · have : c = 'X' := by simpa using hcx
        subst this
        exact jsToNumber_str_nan_of_badchar s 'X' hmem (by decide) (by decide)
          (by decide) (by decide) (by decide) (by decide) (by decide)
    · exact absurd hhex (by simp)
  · intro s hoct
    unfold isOctLiteral at hoct
    split at hoct
    · rename_i c tail heq
      have hmem : c ∈ pyStripL s.toList := by
        rcases pyTakeSign_cases (pyStripL s.toList) with h0 | ⟨d, hd, h0⟩
        · have : c ∈ (pyTakeSign (pyStripL s.toList)).2 := by rw [heq]; simp
          rwa [h0] at this
        · rw [h0, heq]
          simp
      rcases orE hoct with hcx | hcx
      · have : c = 'o' := by simpa using hcx
        subst this
        exact jsToNumber_str_nan_of_badchar s 'o' hmem (by decide) (by decide)
          (by decide) (by decide) (by decide) (by decide) (by decide)
      · have : c = 'O' := by simpa using hcx
        subst this
        exact jsToNumber_str_nan_of_badchar s 'O' hmem (by decide) (by decide)
          (by decide) (by decide) (by decide) (by decide) (by decide)
    · exact absurd hoct (by simp)

/-- Closed witness for C6 at concrete strings: whitespace-only, a decimal
integer, a failing parse, a hexadecimal literal and an 0o-octal literal. -/
theorem C6_js_to_number_witness :
    jsToNumber (.str "   ") = .i 0 ∧
    jsToNumber (.str " 42 ") = .i 42 ∧
    jsToNumber (.str "abc") = .f .nan ∧
    jsToNumber (.str "0x1A") = .f .nan ∧
    jsToNumber (.str "-0o17") = .f .nan := by
  refine ⟨?_, ?_, ?_, ?_, ?_⟩
  · exact C6_js_to_number.2.2.2.2.1 "   " (by decide)
  · exact C6_js_to_number.2.2.2.2.2.2.1 " 42 " 42 (by decide) (by decide) (by decide)
  · exact C6_js_to_number.2.2.2.2.2.2.2.1 "abc" (by decide) (by decide) (by decide)
  · exact C6_js_to_number.2.2.2.2.2.2.2.2.1 "0x1A" (by decide)
  · exact C6_js_to_number.2.2.2.2.2.2.2.2.2.1 "-0o17" (by decide)

/-!  ## Round-trip lemmas (C9): parsing rendered numbers  -/

/-- A digit character differs from any non-digit character. -/
theorem isDigit_ne {c : Char} (h : c.isDigit = true) {d : Char}
    (hd : d.isDigit = false) : c ≠ d := by
  intro he
  rw [he] at h
  rw [h] at hd
  exact Bool.noConfusion hd

/-- A digit character is not whitespace. -/
theorem isDigit_not_space {c : Char} (h : c.isDigit = true) : isPySpace c = false := by
  have hb : ∀ d : Char, d.isDigit = false → (c == d) = false :=
    fun d hd => beq_eq_false_iff_ne.mpr (isDigit_ne h hd)
  simp only [isPySpace, hb ' ' (by decide), hb '\t' (by decide), hb '\n' (by decide),
    hb '\r' (by decide), hb '\x0b' (by decide), hb '\x0c' (by decide), Bool.or_false]

/-- Every character of a rendered natural number is a digit. -/
theorem natDecRender_digits (n : ℕ) : ∀ c ∈ natDecRender n, c.isDigit = true := by
  intro c hc
  unfold natDecRender at hc
  by_cases h : n = 0
  · rw [if_pos h] at hc
    simp only [List.mem_singleton] at hc
    subst hc
    decide
  · rw [if_neg h] at hc
    simp only [List.mem_map, List.mem_reverse] at hc
    obtain ⟨d, hd, rfl⟩ := hc
    exact digitChar_isDigit (Nat.digits_lt_base (by norm_num) hd)

/-- A rendered natural number is never the empty list. -/
theorem natDecRender_ne_nil (n : ℕ) : natDecRender n ≠ [] := by
  unfold natDecRender
  by_cases h : n = 0
  · rw [if_pos h]
    simp
  · rw [if_neg h]
    simp [Nat.digits_ne_nil_iff_ne_zero, h]

/-- A list of digits has no adjacent underscores. -/
theorem noUU_of_digits (l : List Char) (h : ∀ c ∈ l, c.isDigit = true) :
    noUU l = true := by
  induction l with
  | nil => rfl
  | cons a t ih =>
      cases t with
      | nil => rfl
      | cons b t2 =>
          have ha : (a == '_') = false :=
            beq_eq_false_iff_ne.mpr (isDigit_ne (h a (by simp)) (by decide))
          simp only [noUU, ha, Bool.false_and, Bool.not_false, Bool.true_and]
          exact ih (fun c hc => h c (List.mem_cons_of_mem _ hc))

/-- A nonempty list of digits is a valid digit group. -/
theorem validDigitsU_of_digits (l : List Char) (hne : l ≠ [])
    (h : ∀ c ∈ l, c.isDigit = true) : validDigitsU l = true := by
  unfold validDigitsU
  have h1 : l.isEmpty = false := by simpa using hne
  have h2 : (l.head?.getD '_').isDigit = true := by
    cases l with
    | nil => exact absurd rfl hne
    | cons a t => exact h a (by simp)
  have h3 : (l.getLast?.getD '_').isDigit = true := by
    cases hl2 : l.getLast? with
    | none => exact absurd (List.getLast?_eq_none_iff.mp hl2) hne
    | some a =>
        simp only [Option.getD_some]
        have ha : a ∈ l := by
          obtain ⟨hh, hx⟩ := List.mem_getLast?_eq_getLast
            (show a ∈ l.getLast? by rw [Option.mem_def, hl2])
          rw [hx]
          exact List.getLast_mem hh
        exact h a ha
  have h4 : l.all (fun c => c.isDigit || c == '_') = true :=
    List.all_eq_true.mpr (fun c hc => by simp [h c hc])
  simp [List.headD_eq_head?, List.getLastD_eq_getLast?, h1, h2, h3, h4,
    noUU_of_digits l h]

/-- Underscore removal is the identity on digit lists. -/
theorem stripU_digits (l : List Char) (h : ∀ c ∈ l, c.isDigit = true) :
    stripU l = l := by
  apply List.filter_eq_self.mpr
  intro c hc
  have hu : c ≠ '_' := isDigit_ne (h c hc) (show ('_' : Char).isDigit = false by decide)
  simp [beq_eq_false_iff_ne.mpr hu]

/-- The sign step does not fire on a list whose head is a digit. -/
theorem pyTakeSign_cons_digit (a : Char) (t : List Char) (ha : a.isDigit = true) :
    pyTakeSign (a :: t) = (false, a :: t) := by
  have h1 : (a == '-') = false := beq_eq_false_iff_ne.mpr (isDigit_ne ha (by decide))
  have h2 : (a == '+') = false := beq_eq_false_iff_ne.mpr (isDigit_ne ha (by decide))
  simp [pyTakeSign, h1, h2]

/-- int() inverts the decimal rendering of any integer. -/
theorem pyIntParse_pyStrInt (n : ℤ) : pyIntParse (pyStrInt n) = some n := by
  have hd := natDecRender_digits n.natAbs
  have hne := natDecRender_ne_nil n.natAbs
  simp only [pyIntParse]
  by_cases hn : n < 0
  · have htl : (pyStrInt n).toList = '-' :: natDecRender n.natAbs := by
      simp [pyStrInt, hn, String.toList]
    rw [htl]
    rw [pyStripL_eq_self _ (by
      intro c hc
      rcases List.mem_cons.mp hc with rfl | hc2
      · decide
      · exact isDigit_not_space (hd c hc2))]
    rw [show (pyTakeSign ('-' :: natDecRender n.natAbs)).2 =
          natDecRender n.natAbs from rfl,
        show (pyTakeSign ('-' :: natDecRender n.natAbs)).1 = true from rfl]
    rw [if_pos (validDigitsU_of_digits _ hne hd)]
    rw [stripU_digits _ hd, digitsVal_natDecRender]
    congr 1
    simp only [if_true, ite_true]
    omega
  · have htl : (pyStrInt n).toList = natDecRender n.natAbs := by
      simp [pyStrInt, hn, String.toList]
    rw [htl]
    rw [pyStripL_eq_self _ (fun c hc => isDigit_not_space (hd c hc))]
    obtain ⟨a, t, hat⟩ : ∃ a t, natDecRender n.natAbs = a :: t := by
      cases hcase : natDecRender n.natAbs with
      | nil => exact absurd hcase hne
      | cons a t => exact ⟨a, t, rfl⟩
    rw [show (pyTakeSign (natDecRender n.natAbs)).2 = natDecRender n.natAbs from by
          rw [hat, pyTakeSign_cons_digit a t (hd a (by rw [hat]; simp))],
        show (pyTakeSign (natDecRender n.natAbs)).1 = false from by
          rw [hat, pyTakeSign_cons_digit a t (hd a (by rw [hat]; simp))]]
    rw [if_pos (validDigitsU_of_digits _ hne hd)]
    rw [stripU_digits _ hd, digitsVal_natDecRender]
    congr 1
    simp only [Bool.false_eq_true, if_false]
    omega

/-- js_to_number inverts the display form of any int. -/
theorem jsToNumber_pyStrInt (n : ℤ) : jsToNumber (.str (pyStrInt n)) = .i n := by
  have hd := natDecRender_digits n.natAbs
  have hchars : ∀ c ∈ (pyStrInt n).toList, c.isDigit = true ∨ c = '-' := by
    intro c hc
    simp only [pyStrInt, String.toList] at hc
    rcases List.mem_append.mp hc with hc1 | hc1
    · by_cases hn2 : n < 0
      · rw [if_pos hn2] at hc1
        simp only [List.mem_singleton] at hc1
        exact Or.inr hc1
      · rw [if_neg hn2] at hc1
        exact absurd hc1 (List.not_mem_nil c)
    · exact Or.inl (hd c hc1)
  have hstrip : pyStrip (pyStrInt n) = pyStrInt n := by
    unfold pyStrip
    rw [pyStripL_eq_self _ (by
      intro c hc
      rcases hchars c hc with h1 | rfl
      · exact isDigit_not_space h1
      · decide)]
    rfl
  simp only [jsToNumber]
  rw [hstrip]
  rw [if_neg (by
    intro he
    have : (pyStrInt n).toList = [] := congrArg String.data he
    simp only [pyStrInt, String.toList] at this
    exact natDecRender_ne_nil n.natAbs (List.append_eq_nil.mp this).2)]
  rw [if_neg (by
    rw [Bool.not_eq_true, List.any_eq_false]
    intro c hc
    rcases hchars c hc with h1 | rfl
    · simp [beq_eq_false_iff_ne.mpr
          (isDigit_ne h1 (show ('.' : Char).isDigit = false by decide)),
        beq_eq_false_iff_ne.mpr
          (isDigit_ne h1 (show ('e' : Char).isDigit = false by decide)),
        beq_eq_false_iff_ne.mpr
          (isDigit_ne h1 (show ('E' : Char).isDigit = false by decide))]
    · decide)]
  rw [pyIntParse_pyStrInt]

/-- Splitting finds nothing when no character satisfies p. -/
theorem splitAtFirst_none (p : Char → Bool) (l : List Char)
    (h : ∀ c ∈ l, p c = false) : splitAtFirst p l = (l, none) := by
  induction l with
  | nil => rfl
  | cons c cs ih =>
      have hc := h c (List.mem_cons_self _ _)
      simp [splitAtFirst, hc, ih (fun x hx => h x (List.mem_cons_of_mem _ hx))]

/-- Splitting an explicit decomposition at its first separator. -/
theorem splitAtFirst_append (p : Char → Bool) (X : List Char) (sep : Char)
    (Y : List Char) (hX : ∀ c ∈ X, p c = false) (hsep : p sep = true) :
    splitAtFirst p (X ++ sep :: Y) = (X, some (sep, Y)) := by
  induction X with
  | nil => simp [splitAtFirst, hsep]
  | cons c cs ih =>
      have hc := hX c (List.mem_cons_self _ _)
      simp [splitAtFirst, hc, ih (fun x hx => hX x (List.mem_cons_of_mem _ hx))]

/-- Zero-padding preserves digit-ness. -/
theorem leftPad0_digits (n : ℕ) (l : List Char) (h : ∀ c ∈ l, c.isDigit = true) :
    ∀ c ∈ leftPad0 n l, c.isDigit = true := by
  intro c hc
  rcases List.mem_append.mp hc with hc1 | hc1
  · rw [List.eq_of_mem_replicate hc1]
    decide
  · exact h c hc1

/-- Zero-padding reaches the requested length. -/
theorem leftPad0_length (n : ℕ) (l : List Char) : n ≤ (leftPad0 n l).length := by
  simp only [leftPad0, List.length_append, List.length_replicate]
  omega

/-- Leading zeros do not change the decimal valuation. -/
theorem digitsVal_zeros_append (j : ℕ) (l : List Char) :
    digitsVal (List.replicate j '0' ++ l) = digitsVal l := by
  unfold digitsVal
  rw [List.foldl_append]
  congr 1
  induction j with
  | zero => rfl
  | succ kk ih =>
      rw [List.replicate_succ, List.foldl_cons]
      have h0 : (10 * 0 + ('0'.toNat - 48)) = 0 := by decide
      rw [h0]
      exact ih

/-- Padding does not change the decimal valuation. -/
theorem digitsVal_leftPad0 (n : ℕ) (l : List Char) :
    digitsVal (leftPad0 n l) = digitsVal l :=
  digitsVal_zeros_append _ _

/-- float() on an optionally signed positional decimal built from two
nonempty digit groups around a dot. -/
theorem pyFloatParse_ip_fp (neg : Bool) (ip fp : List Char)
    (hipd : ∀ c ∈ ip, c.isDigit = true) (hfpd : ∀ c ∈ fp, c.isDigit = true)
    (hipne : ip ≠ []) (hfpne : fp ≠ []) :
    pyFloatParse (⟨(if neg then ['-'] else []) ++ (ip ++ '.' :: fp)⟩ : String) =
      some ((if neg then -1 else 1) * ((digitsVal (ip ++ fp) : ℚ) / 10 ^ fp.length)) := by
  have hre : ∀ c ∈ ip ++ '.' :: fp, ((c == 'e' || c == 'E') : Bool) = false := by
    intro c hc
    have hcc : c.isDigit = true ∨ c = '.' := by
      rcases List.mem_append.mp hc with h1 | h1
      · exact Or.inl (hipd c h1)
      · rcases List.mem_cons.mp h1 with rfl | h2
        · exact Or.inr rfl
        · exact Or.inl (hfpd c h2)
    rcases hcc with h1 | rfl
    · simp [beq_eq_false_iff_ne.mpr
          (isDigit_ne h1 (show ('e' : Char).isDigit = false by decide)),
        beq_eq_false_iff_ne.mpr
          (isDigit_ne h1 (show ('E' : Char).isDigit = false by decide))]
    · decide
  have hnodot : ∀ c ∈ ip, ((c == '.') : Bool) = false := fun c hc =>
    beq_eq_false_iff_ne.mpr
      (isDigit_ne (hipd c hc) (show ('.' : Char).isDigit = false by decide))
  have hnospace : ∀ c ∈ (if neg then ['-'] else []) ++ (ip ++ '.' :: fp),
      isPySpace c = false := by
    intro c hc
    rcases List.mem_append.mp hc with h1 | h1
    · cases neg with
      | true =>
          simp only [if_true, List.mem_singleton] at h1
          subst h1
          decide
      | false => simp at h1
    · rcases List.mem_append.mp h1 with h2 | h2
      · exact isDigit_not_space (hipd c h2)
      · rcases List.mem_cons.mp h2 with rfl | h3
        · decide
        · exact isDigit_not_space (hfpd c h3)
  have hipE : ip.isEmpty = false := by simpa using hipne
  have hvip : validDigitsU ip = true := validDigitsU_of_digits _ hipne hipd
  have hvfp : validDigitsU fp = true := validDigitsU_of_digits _ hfpne hfpd
  have hips : stripU ip = ip := stripU_digits _ hipd
  have hfps : stripU fp = fp := stripU_digits _ hfpd
  simp only [pyFloatParse]
  rw [show ((⟨(if neg then ['-'] else []) ++ (ip ++ '.' :: fp)⟩ : String)).toList
      = (if neg then ['-'] else []) ++ (ip ++ '.' :: fp) from rfl]
  rw [pyStripL_eq_self _ hnospace]
  cases neg with
  | true =>
      rw [if_pos rfl]
      rw [show (['-'] : List Char) ++ (ip ++ '.' :: fp) = '-' :: (ip ++ '.' :: fp)
        from rfl]
      rw [show (pyTakeSign ('-' :: (ip ++ '.' :: fp))).2 = ip ++ '.' :: fp from rfl,
        show (pyTakeSign ('-' :: (ip ++ '.' :: fp))).1 = true from rfl]
      rw [splitAtFirst_none _ _ hre]
      dsimp only
      rw [splitAtFirst_append _ _ _ _ hnodot (by decide)]
      dsimp only
      simp only [Option.map_some', Option.getD_some]
      rw [hipE, hvip, hvfp, hips, hfps]
      simp only [Bool.false_and, Bool.not_false, Bool.true_and, Bool.and_true,
        Bool.or_true, Bool.false_or, if_true, Option.some.injEq]
      ring
  | false =>
      rw [if_neg (by simp)]
      rw [List.nil_append]
      obtain ⟨a, ip2, hat⟩ : ∃ a ip2, ip = a :: ip2 := by
        cases hcase : ip with
        | nil => exact absurd hcase hipne
        | cons a t => exact ⟨a, t, rfl⟩
      have hts : pyTakeSign (ip ++ '.' :: fp) = (false, ip ++ '.' :: fp) := by
        rw [hat, List.cons_append]
        exact pyTakeSign_cons_digit a (ip2 ++ '.' :: fp) (hipd a (by rw [hat]; simp))
      rw [show (pyTakeSign (ip ++ '.' :: fp)).2 = ip ++ '.' :: fp from by rw [hts],
        show (pyTakeSign (ip ++ '.' :: fp)).1 = false from by rw [hts]]
      rw [splitAtFirst_none _ _ hre]
      dsimp only
      rw [splitAtFirst_append _ _ _ _ hnodot (by decide)]
      dsimp only
      simp only [Option.map_some', Option.getD_some]
      rw [hipE, hvip, hvfp, hips, hfps]
      simp only [Bool.false_and, Bool.not_false, Bool.true_and, Bool.and_true,
        Bool.or_true, Bool.false_or, Bool.false_eq_true, if_false, if_true,
        Option.some.injEq]
      ring

/-- float() inverts renderDec: the rendered m/10^k parses back exactly. -/
theorem pyFloatParse_renderDec (m : ℤ) (k : ℕ) (hk : 1 ≤ k) :
    pyFloatParse (⟨renderDec m k⟩ : String) = some ((m : ℚ) / 10 ^ k) := by
  have hdsd := leftPad0_digits (k + 1) (natDecRender m.natAbs) (natDecRender_digits _)
  have hdsl := leftPad0_length (k + 1) (natDecRender m.natAbs)
  have hipd : ∀ c ∈ (leftPad0 (k + 1) (natDecRender m.natAbs)).take
      ((leftPad0 (k + 1) (natDecRender m.natAbs)).length - k), c.isDigit = true :=
    fun c hc => hdsd c (List.take_subset _ _ hc)
  have hfpd : ∀ c ∈ (leftPad0 (k + 1) (natDecRender m.natAbs)).drop
      ((leftPad0 (k + 1) (natDecRender m.natAbs)).length - k), c.isDigit = true :=
    fun c hc => hdsd c (List.drop_subset _ _ hc)
  have hipne : (leftPad0 (k + 1) (natDecRender m.natAbs)).take
      ((leftPad0 (k + 1) (natDecRender m.natAbs)).length - k) ≠ [] := by
    apply List.ne_nil_of_length_pos
    rw [List.length_take]
    omega
  have hfplen : ((leftPad0 (k + 1) (natDecRender m.natAbs)).drop
      ((leftPad0 (k + 1) (natDecRender m.natAbs)).length - k)).length = k := by
    rw [List.length_drop]
    omega
  have hfpne : (leftPad0 (k + 1) (natDecRender m.natAbs)).drop
      ((leftPad0 (k + 1) (natDecRender m.natAbs)).length - k) ≠ [] := by
    intro h0
    rw [h0] at hfplen
    simp only [List.length_nil] at hfplen
    omega
  by_cases hm : m < 0
  · have hlist : renderDec m k = (if (true : Bool) then ['-'] else []) ++
        ((leftPad0 (k + 1) (natDecRender m.natAbs)).take
          ((leftPad0 (k + 1) (natDecRender m.natAbs)).length - k) ++
         '.' :: (leftPad0 (k + 1) (natDecRender m.natAbs)).drop
          ((leftPad0 (k + 1) (natDecRender m.natAbs)).length - k)) := by
      simp only [renderDec, if_pos hm, if_pos, List.append_assoc]
    rw [congrArg String.mk hlist]
    rw [pyFloatParse_ip_fp true _ _ hipd hfpd hipne hfpne]
    rw [List.take_append_drop, digitsVal_leftPad0, digitsVal_natDecRender, hfplen]
    have habs : ((m.natAbs : ℚ)) = -(m : ℚ) := by
      rw [Int.cast_natAbs, abs_of_neg hm]
      push_cast
      ring
    rw [habs]
    congr 1
    norm_num
    ring
  · have hlist : renderDec m k = (if (false : Bool) then ['-'] else []) ++
        ((leftPad0 (k + 1) (natDecRender m.natAbs)).take
          ((leftPad0 (k + 1) (natDecRender m.natAbs)).length - k) ++
         '.' :: (leftPad0 (k + 1) (natDecRender m.natAbs)).drop
          ((leftPad0 (k + 1) (natDecRender m.natAbs)).length - k)) := by
      simp only [renderDec, if_neg hm, List.append_assoc, Bool.false_eq_true,
        if_false]
    rw [congrArg String.mk hlist]
    rw [pyFloatParse_ip_fp false _ _ hipd hfpd hipne hfpne]
    rw [List.take_append_drop, digitsVal_leftPad0, digitsVal_natDecRender, hfplen]
    have habs : ((m.natAbs : ℚ)) = (m : ℚ) := by
      rw [Int.cast_natAbs, abs_of_nonneg (not_lt.mp hm)]
    rw [habs]
    congr 1
    norm_num

/-- js_to_number inverts renderDec through the string branch. -/
theorem jsToNumber_renderDec (m : ℤ) (k : ℕ) (hk : 1 ≤ k) :
    jsToNumber (.str (⟨renderDec m k⟩ : String)) = .f (.fin ((m : ℚ) / 10 ^ k)) := by
  have hdsd := leftPad0_digits (k + 1) (natDecRender m.natAbs) (natDecRender_digits _)
  have hchars : ∀ c ∈ renderDec m k, c.isDigit = true ∨ c = '-' ∨ c = '.' := by
    intro c hc
    simp only [renderDec] at hc
    rcases List.mem_append.mp hc with h1 | h1
    · rcases List.mem_append.mp h1 with h2 | h2
      · by_cases hm : m < 0
        · rw [if_pos hm] at h2
          simp only [List.mem_singleton] at h2
          exact Or.inr (Or.inl h2)
        · rw [if_neg hm] at h2
          exact absurd h2 (List.not_mem_nil c)
      · exact Or.inl (hdsd c (List.take_subset _ _ h2))
    · rcases List.mem_cons.mp h1 with rfl | h2
      · exact Or.inr (Or.inr rfl)
      · exact Or.inl (hdsd c (List.drop_subset _ _ h2))
  have hdot : '.' ∈ renderDec m k := by
    simp only [renderDec]
    exact List.mem_append.mpr (Or.inr (List.mem_cons_self _ _))
  have hstrip : pyStrip (⟨renderDec m k⟩ : String) = ⟨renderDec m k⟩ := by
    unfold pyStrip
    rw [pyStripL_eq_self _ (by
      intro c hc
      rcases hchars c hc with h1 | rfl | rfl
      · exact isDigit_not_space h1
      · decide
      · decide)]
    rfl
  simp only [jsToNumber]
  rw [hstrip]
  rw [if_neg (by
    intro he
    have h0 : renderDec m k = [] := congrArg String.data he
    rw [h0] at hdot
    exact absurd hdot (List.not_mem_nil _))]
  rw [if_pos (show ((⟨renderDec m k⟩ : String).toList.any
      fun c => c == '.' || c == 'e' || c == 'E') = true from
    List.any_eq_true.mpr ⟨'.', hdot, by decide⟩)]
  rw [pyFloatParse_renderDec m k hk]

/-- C9: the display conversion of js_add/console_log reparses to the same
number under js_to_number: ints round-trip exactly, and a finite float whose
decimal expansion terminates (the non-exotic display forms; decExp computes
the exponent) round-trips exactly. -/
theorem C9_to_number_display_roundtrip :
    (∀ n : ℤ, jsToNumber (.str (toJsString (.num (.i n)))) = .i n) ∧
    (∀ (q : ℚ) (k : ℕ), decExp q.den = some k →
        jsToNumber (.str (toJsString (.num (.f (.fin q))))) = .f (.fin q)) := by
  constructor
  · exact fun n => jsToNumber_pyStrInt n
  · intro q k hk
    have hfind := List.find?_some hk
    have hdvd : q.den ∣ 10 ^ k :=
      Nat.dvd_of_mod_eq_zero (by simpa using hfind)
    show jsToNumber (.str (pyStrFloat q)) = .f (.fin q)
    rw [show pyStrFloat q =
        ⟨renderDec (q.num * 10 ^ max k 1 / (q.den : ℤ)) (max k 1)⟩ from by
      simp only [pyStrFloat, hk]]
    rw [jsToNumber_renderDec _ _ (le_max_right _ _)]
    have hdvd2 : (q.den : ℤ) ∣ 10 ^ max k 1 := by
      have h10 : (10 : ℕ) ^ k ∣ 10 ^ max k 1 := pow_dvd_pow _ (le_max_left _ _)
      exact_mod_cast dvd_trans hdvd h10
    obtain ⟨t, ht⟩ := hdvd2
    have hden0 : (q.den : ℤ) ≠ 0 := by
      exact_mod_cast q.den_pos.ne'
    have hQt0 : (t : ℚ) ≠ 0 := by
      intro h0
      have ht0 : t = 0 := by exact_mod_cast h0
      rw [ht0, mul_zero] at ht
      exact absurd ht (by positivity)
    have hm2 : q.num * 10 ^ max k 1 / (q.den : ℤ) = q.num * t := by
      rw [ht, show q.num * ((q.den : ℤ) * t) = (q.den : ℤ) * (q.num * t) from by ring,
        Int.mul_ediv_cancel_left _ hden0]
    rw [hm2]
    have hQ : (10 : ℚ) ^ max k 1 = (q.den : ℚ) * (t : ℚ) := by
      have h2 := congrArg (fun z : ℤ => (z : ℚ)) ht
      push_cast at h2
      simpa using h2
    congr 2
    rw [hQ]
    push_cast
    rw [mul_div_mul_right _ _ hQt0, Rat.num_div_den]

/-- Closed witness for C9 at concrete numbers: the int -42 and the float 3/2
(display forms -42 and 1.5) round-trip. -/
theorem C9_to_number_display_roundtrip_witness :
    jsToNumber (.str (toJsString (.num (.i (-42))))) = .i (-42) ∧
    jsToNumber (.str (toJsString (.num (.f (.fin (3 / 2)))))) = .f (.fin (3 / 2)) := by
  constructor
  · exact C9_to_number_display_roundtrip.1 (-42)
  · exact C9_to_number_display_roundtrip.2 (3 / 2) 1
      (by rw [show ((3 : ℚ) / 2).den = 2 from by norm_num]; decide)

/-- C10: strict equality is symmetric on every pair of values, all variants
included. -/
theorem C10_js_strict_eq_symm : ∀ a b : Value, jsStrictEq a b = jsStrictEq b a := by
  intro a b
  by_cases ha : isNaNV a = true
  · by_cases hb : isNaNV b = true <;> simp [jsStrictEq, ha, hb]
  · by_cases hb : isNaNV b = true
    · simp [jsStrictEq, ha, hb]
    · cases a <;> cases b <;>
        simp_all [jsStrictEq, isNaNV, isNullV, isUndefV, JSF.eqB_comm, beqSymm]

end JsCompat
